import Mathlib

/-!
# Verification of the fuzzy-date core pipeline

A shallow embedding, in Lean, of the core of the `fuzzy-date` Rust library:
the tokenizer (`src/token.rs`), the pattern-matching conversion engine
(`src/fuzzy.rs`) and the calendar-arithmetic layer (`src/convert.rs`),
together with theorems settling the specification claims about them.

Strings are embedded as `List Char`.  All pattern-template strings are
ASCII, so character order coincides with Rust's byte order on them.
Fallible Rust operations are embedded as `Option`-valued functions; a
`.unwrap()` on a failed operation (a panic) is propagated as `none` and is
kept distinct from the graceful `Err(())`/`None` returns of the code.
-/

namespace FuzzyDateSpec

/-! ## Character-list utilities

Embeddings of the string primitives the Rust code uses: `str::starts_with`,
byte-wise `Ord::cmp` and the selection of the greatest element that
`calls.sort_by(|a, b| b.cmp(a))` followed by `calls.first()` performs. -/

/-- `startsWith s p` holds when `s` begins with `p`
(Rust `s.starts_with(p)`). -/
def startsWith : List Char → List Char → Bool
  | _, [] => true
  | [], _ :: _ => false
  | c :: s, p :: ps => c == p && startsWith s ps

/-- Strict lexicographic order on character lists, mirroring Rust's
`str::cmp` (byte order) on the ASCII pattern strings. -/
def ltCh : List Char → List Char → Bool
  | [], [] => false
  | [], _ :: _ => true
  | _ :: _, [] => false
  | a :: as, b :: bs =>
    if a < b then true
    else if b < a then false
    else ltCh as bs

/-- The larger of two keys under `ltCh`. -/
def maxCh (a b : List Char) : List Char := if ltCh a b then b else a

/-- The key that `find_pattern_calls` selects from the matching ones:
the code sorts them descending (`calls.sort_by(|a, b| b.cmp(a))`) and takes
the first, i.e. the greatest under `ltCh`. -/
def bestOf : List (List Char) → List Char
  | [] => []
  | x :: xs => xs.foldl maxCh x

theorem ltCh_irrefl : ∀ a, ltCh a a = false
  | [] => rfl
  | c :: as => by simp [ltCh, lt_self_iff_false, ltCh_irrefl as]

theorem ltCh_asymm : ∀ a b, ltCh a b = true → ltCh b a = false
  | [], [], h => by simp [ltCh] at h
  | [], _ :: _, _ => by simp [ltCh]
  | _ :: _, [], h => by simp [ltCh] at h
  | a :: as, b :: bs, h => by
    rcases lt_trichotomy a b with hc | hc | hc
    · simp [ltCh, hc, lt_asymm hc]
    · subst hc
      simp only [ltCh, lt_self_iff_false, if_false] at h ⊢
      exact ltCh_asymm as bs h
    · simp [ltCh, hc, lt_asymm hc] at h

theorem ltCh_trans : ∀ a b c, ltCh a b = true → ltCh b c = true → ltCh a c = true
  | [], [], _, h₁, _ => by simp [ltCh] at h₁
  | [], _ :: _, [], _, h₂ => by simp [ltCh] at h₂
  | [], _ :: _, _ :: _, _, _ => rfl
  | _ :: _, [], _, h₁, _ => by simp [ltCh] at h₁
  | _ :: _, _ :: _, [], _, h₂ => by simp [ltCh] at h₂
  | a :: as, b :: bs, c :: cs, h₁, h₂ => by
    rcases lt_trichotomy a b with hab | hab | hab
    · rcases lt_trichotomy b c with hbc | hbc | hbc
      · simp [ltCh, lt_trans hab hbc]
      · subst hbc; simp [ltCh, hab]
      · simp [ltCh, hbc, lt_asymm hbc] at h₂
    · subst hab
      rcases lt_trichotomy a c with hbc | hbc | hbc
      · simp [ltCh, hbc]
      · subst hbc
        simp only [ltCh, lt_self_iff_false, if_false] at h₁ h₂ ⊢
        exact ltCh_trans as bs cs h₁ h₂
      · simp [ltCh, hbc, lt_asymm hbc] at h₂
    · simp [ltCh, hab, lt_asymm hab] at h₁

theorem ltCh_total : ∀ a b, ltCh a b = true ∨ ltCh b a = true ∨ a = b
  | [], [] => Or.inr (Or.inr rfl)
  | [], _ :: _ => Or.inl (by simp [ltCh])
  | _ :: _, [] => Or.inr (Or.inl (by simp [ltCh]))
  | a :: as, b :: bs => by
    rcases lt_trichotomy a b with hc | hc | hc
    · exact Or.inl (by simp [ltCh, hc])
    · subst hc
      rcases ltCh_total as bs with h | h | h
      · exact Or.inl (by simp [ltCh, lt_self_iff_false, h])
      · exact Or.inr (Or.inl (by simp [ltCh, lt_self_iff_false, h]))
      · exact Or.inr (Or.inr (by rw [h]))
    · exact Or.inr (Or.inl (by simp [ltCh, hc]))

theorem maxCh_eq_or (a b : List Char) : maxCh a b = a ∨ maxCh a b = b := by
  unfold maxCh; split
  · exact Or.inr rfl
  · exact Or.inl rfl

theorem ltCh_maxCh_left (a b : List Char) : ltCh (maxCh a b) a = false := by
  unfold maxCh; split
  · next h => exact ltCh_asymm _ _ h
  · exact ltCh_irrefl a

theorem ltCh_maxCh_right (a b : List Char) : ltCh (maxCh a b) b = false := by
  unfold maxCh; split
  · exact ltCh_irrefl b
  · next h => simpa using h

theorem ltCh_false_of_false_of_false {a b c : List Char}
    (h₁ : ltCh a b = false) (h₂ : ltCh b c = false) : ltCh a c = false := by
  cases hac : ltCh a c with
  | false => rfl
  | true =>
    exfalso
    have hba : ltCh b a = true ∨ a = b := by
      rcases ltCh_total a b with h | h | h
      · rw [h] at h₁; cases h₁
      · exact Or.inl h
      · exact Or.inr h
    have hcb : ltCh c b = true ∨ b = c := by
      rcases ltCh_total b c with h | h | h
      · rw [h] at h₂; cases h₂
      · exact Or.inl h
      · exact Or.inr h
    rcases hba with hba | hba <;> rcases hcb with hcb | hcb
    · have := ltCh_trans _ _ _ (ltCh_trans _ _ _ hcb hba) hac
      rw [ltCh_irrefl] at this; cases this
    · rw [← hcb] at hac; rw [hac] at h₁; cases h₁
    · rw [hba] at hac
      have := ltCh_trans _ _ _ hac hcb
      rw [ltCh_irrefl] at this; cases this
    · rw [hba, hcb] at hac
      rw [ltCh_irrefl] at hac; cases hac

theorem foldl_maxCh_mem : ∀ (xs : List (List Char)) (a : List Char),
    xs.foldl maxCh a ∈ a :: xs
  | [], a => by simp
  | x :: xs, a => by
    have ih := foldl_maxCh_mem xs (maxCh a x)
    simp only [List.foldl_cons]
    rcases List.mem_cons.mp ih with h | h
    · rcases maxCh_eq_or a x with g | g <;> rw [h, g] <;> simp
    · simp [h]

theorem foldl_maxCh_not_lt : ∀ (xs : List (List Char)) (a k : List Char),
    k ∈ a :: xs → ltCh (xs.foldl maxCh a) k = false
  | [], a, k, hk => by
    simp only [List.mem_singleton] at hk
    simp [hk, ltCh_irrefl]
  | x :: xs, a, k, hk => by
    simp only [List.foldl_cons]
    rcases List.mem_cons.mp hk with h | h
    · rw [h]
      exact ltCh_false_of_false_of_false
        (foldl_maxCh_not_lt xs (maxCh a x) (maxCh a x) (by simp))
        (ltCh_maxCh_left a x)
    · rcases List.mem_cons.mp h with g | g
      · rw [g]
        exact ltCh_false_of_false_of_false
          (foldl_maxCh_not_lt xs (maxCh a x) (maxCh a x) (by simp))
          (ltCh_maxCh_right a x)
      · exact foldl_maxCh_not_lt xs (maxCh a x) k (by simp [g])

theorem bestOf_mem {cands : List (List Char)} (h : cands ≠ []) :
    bestOf cands ∈ cands := by
  cases cands with
  | nil => exact absurd rfl h
  | cons x xs => exact foldl_maxCh_mem xs x

theorem bestOf_not_lt {cands : List (List Char)} {k : List Char}
    (hk : k ∈ cands) : ltCh (bestOf cands) k = false := by
  cases cands with
  | nil => cases hk
  | cons x xs => exact foldl_maxCh_not_lt xs x k hk

/-! ## Prefix compatibility -/

/-- Two keys are compatible when one begins with the other.  Any two
prefixes of a common string are compatible. -/
def compatCh (a b : List Char) : Bool := startsWith a b || startsWith b a

theorem startsWith_cons {s b : List Char} (c : Char) (h : startsWith s b = true) :
    startsWith (c :: s) (c :: b) = true := by
  simp [startsWith, h]

theorem compat_of_common : ∀ (s a b : List Char),
    startsWith s a = true → startsWith s b = true → compatCh a b = true
  | _, [], b, _, hb => by simp [compatCh, startsWith]
  | _, _ :: _, [], _, _ => by simp [compatCh, startsWith]
  | [], _ :: _, _, ha, _ => by simp [startsWith] at ha
  | c :: s, a :: as, b :: bs, ha, hb => by
    simp only [startsWith, Bool.and_eq_true, beq_iff_eq] at ha hb
    have ih := compat_of_common s as bs ha.2 hb.2
    simp only [compatCh, Bool.or_eq_true] at ih ⊢
    rcases ih with h | h
    · exact Or.inl (by rw [← ha.1, ← hb.1] at *; exact startsWith_cons c h)
    · exact Or.inr (by rw [← ha.1, ← hb.1] at *; exact startsWith_cons c h)

/-! ## The pattern-template keys (`constants.rs` / `FUZZY_PATTERNS`) -/

/-- The 41 built-in pattern-template strings registered in
`FUZZY_PATTERNS` (`fuzzy.rs`, via `constants.rs`). -/
def builtinKeys : List (List Char) :=
  [ "now".toList, "today".toList, "midnight".toList, "yesterday".toList,
    "tomorrow".toList,
    "this [wday]".toList, "prev [wday]".toList, "last [wday]".toList,
    "next [wday]".toList,
    "this [long_unit]".toList, "prev [long_unit]".toList,
    "last [long_unit]".toList, "next [long_unit]".toList,
    "-[int][unit]".toList, "-[int][short_unit]".toList,
    "-[int] [long_unit]".toList,
    "+[int][unit]".toList, "+[int][short_unit]".toList,
    "+[int] [long_unit]".toList,
    "[int] [unit] ago".toList, "[int] [long_unit] ago".toList,
    "first [long_unit] of [month]".toList,
    "last [long_unit] of [month]".toList,
    "first [long_unit] of this [long_unit]".toList,
    "last [long_unit] of this [long_unit]".toList,
    "first [long_unit] of prev [long_unit]".toList,
    "last [long_unit] of prev [long_unit]".toList,
    "first [long_unit] of last [long_unit]".toList,
    "last [long_unit] of last [long_unit]".toList,
    "first [long_unit] of next [long_unit]".toList,
    "last [long_unit] of next [long_unit]".toList,
    "[timestamp]".toList, "[timestamp].[int]".toList,
    "[year]-[int]-[int]".toList, "[int].[int].[year]".toList,
    "[int]/[int]/[year]".toList,
    "[month] [int] [year]".toList, "[month] [nth] [year]".toList,
    "[int] [month] [year]".toList,
    "[year]-[int]-[int] [int]:[int]".toList,
    "[year]-[int]-[int] [int]:[int]:[int]".toList ]

/-- The inferred sign character (`fuzzy.rs` lines 275–281): `'-'` when the
pattern starts with `-`, `prev` or `last`, else `'+'`.  In the code this is
computed once, from the whole original pattern, before the loop. -/
def signChar (pattern : List Char) : Char :=
  if startsWith pattern "-".toList || startsWith pattern "prev".toList
      || startsWith pattern "last".toList then '-' else '+'

/-- The template keys matching the current remaining suffix, directly or
with the inferred sign prepended (`fuzzy.rs` lines 284–291). -/
def candidatesFor (keys : List (List Char)) (sign : Char) (search : List Char) :
    List (List Char) :=
  keys.filter (fun k => startsWith search k || startsWith (sign :: search) k)

/-! ## C1: longest-match selection -/

/-- Pair condition used for C1: if `a` is strictly shorter than `b` then in
every way the two can simultaneously match one suffix (expressed through
prefix-compatibility, with or without the sign character), `a` sorts
strictly below `b`. -/
def longerPairOK (sign : Char) (a b : List Char) : Bool :=
  decide (b.length ≤ a.length)
    || ((!compatCh a b || ltCh a b)
        && (!compatCh a (sign :: b) || ltCh a b)
        && (!compatCh (sign :: a) b || ltCh a b))

theorem builtin_pairs_ok :
    (builtinKeys.all fun a => builtinKeys.all fun b =>
      longerPairOK '+' a b && longerPairOK '-' a b) = true := by decide

theorem candidatesFor_subset {keys : List (List Char)} {sign : Char}
    {search k : List Char} (h : k ∈ candidatesFor keys sign search) :
    k ∈ keys := (List.mem_filter.mp h).1

theorem candidatesFor_matches {keys : List (List Char)} {sign : Char}
    {search k : List Char} (h : k ∈ candidatesFor keys sign search) :
    startsWith search k = true ∨ startsWith (sign :: search) k = true := by
  have := (List.mem_filter.mp h).2
  simpa using this

/-- Any two candidates for one suffix are prefix-compatible, possibly
through the sign character. -/
theorem candidates_compat {keys : List (List Char)} {sign : Char}
    {search a b : List Char} (ha : a ∈ candidatesFor keys sign search)
    (hb : b ∈ candidatesFor keys sign search) :
    compatCh a b = true ∨ compatCh a (sign :: b) = true
      ∨ compatCh (sign :: a) b = true := by
  rcases candidatesFor_matches ha with h₁ | h₁ <;>
    rcases candidatesFor_matches hb with h₂ | h₂
  · exact Or.inl (compat_of_common search a b h₁ h₂)
  · exact Or.inr (Or.inr
      (compat_of_common (sign :: search) (sign :: a) b
        (startsWith_cons sign h₁) h₂))
  · exact Or.inr (Or.inl
      (compat_of_common (sign :: search) a (sign :: b) h₁
        (startsWith_cons sign h₂)))
  · exact Or.inl (compat_of_common (sign :: search) a b h₁ h₂)

theorem longerPairOK_of_builtin {a b : List Char} (ha : a ∈ builtinKeys)
    (hb : b ∈ builtinKeys) (sign : Char) (hs : sign = '+' ∨ sign = '-') :
    longerPairOK sign a b = true := by
  have h := builtin_pairs_ok
  rw [List.all_eq_true] at h
  have h := h a ha
  rw [List.all_eq_true] at h
  have h := h b hb
  rcases (Bool.and_eq_true _ _).mp h with ⟨hp, hm⟩
  rcases hs with hs | hs <;> rw [hs] <;> assumption

/-- C1, amended: with the built-in template table, the key the engine
selects (the `ltCh`-greatest matching key) is always one of maximal length
among the matching keys. -/
theorem c1_builtin_selects_longest (sign : Char) (search : List Char)
    (hs : sign = '+' ∨ sign = '-') (k : List Char)
    (hk : k ∈ candidatesFor builtinKeys sign search) :
    k.length ≤ (bestOf (candidatesFor builtinKeys sign search)).length := by
  set cands := candidatesFor builtinKeys sign search with hcands
  have hne : cands ≠ [] := by
    intro h; rw [h] at hk; cases hk
  have hbmem : bestOf cands ∈ cands := bestOf_mem hne
  by_contra hlong
  push_neg at hlong
  have hpair := longerPairOK_of_builtin
    (candidatesFor_subset hbmem) (candidatesFor_subset hk) sign hs
  unfold longerPairOK at hpair
  have hlen : decide (k.length ≤ (bestOf cands).length) = false := by
    simp [Nat.not_le.mpr hlong]
  rw [hlen, Bool.false_or] at hpair
  rcases (Bool.and_eq_true _ _).mp hpair with ⟨hpair₁, hpair₃⟩
  rcases (Bool.and_eq_true _ _).mp hpair₁ with ⟨hpair₁, hpair₂⟩
  have hlt : ltCh (bestOf cands) k = true := by
    rcases candidates_compat hbmem hk with hc | hc | hc
    · rcases (Bool.or_eq_true _ _).mp hpair₁ with h | h
      · rw [hc] at h; cases h
      · exact h
    · rcases (Bool.or_eq_true _ _).mp hpair₂ with h | h
      · rw [hc] at h; cases h
      · exact h
    · rcases (Bool.or_eq_true _ _).mp hpair₃ with h | h
      · rw [hc] at h; cases h
      · exact h
  have := bestOf_not_lt hk
  rw [hlt] at this
  cases this

/-- Witness for C1: a concrete selection step where the hypotheses hold. -/
theorem c1_builtin_selects_longest_witness :
    ("now".toList ∈ candidatesFor builtinKeys '+' "now midnight".toList)
      ∧ ("now".toList : List Char).length
          ≤ (bestOf (candidatesFor builtinKeys '+' "now midnight".toList)).length :=
  ⟨by decide,
   c1_builtin_selects_longest '+' "now midnight".toList (Or.inl rfl)
     "now".toList (by decide)⟩

/-- Key table after registering the caller aliases `"ab"` (for `now`,
0 placeholders each) and `"+abc"` (for `today`) — both registrations are
accepted by `add_patterns`, since the alias targets exist and the
placeholder arities match. -/
def c1CustomKeys : List (List Char) :=
  builtinKeys ++ ["ab".toList, "+abc".toList]

/-- C1 counterexample: with caller-registered aliases present, the engine's
selection (reverse-lexicographic maximum) picks the 2-character key `ab`
for the suffix `abc` even though the 4-character key `+abc` also matches,
so maximal length is not the primary selection criterion. -/
theorem c1_counterexample :
    "+abc".toList ∈ candidatesFor c1CustomKeys (signChar "abc".toList) "abc".toList
      ∧ bestOf (candidatesFor c1CustomKeys (signChar "abc".toList) "abc".toList)
          = "ab".toList
      ∧ ("ab".toList : List Char).length < ("+abc".toList : List Char).length := by
  decide

/-! ## Tokenizer (`token.rs`) -/

/-- `TokenType` from `token.rs`. -/
inductive TokenType where
  | integer | longUnit | month | nth | shortUnit | timestamp | unit | weekday
  | year
deriving DecidableEq, Repr

/-- `TokenType::as_name`. -/
def TokenType.asName : TokenType → List Char
  | .integer => "int".toList
  | .longUnit => "long_unit".toList
  | .month => "month".toList
  | .shortUnit => "short_unit".toList
  | .nth => "nth".toList
  | .timestamp => "timestamp".toList
  | .unit => "unit".toList
  | .weekday => "wday".toList
  | .year => "year".toList

/-- `TokenType::as_pattern`: the bracketed placeholder. -/
def TokenType.asPattern (t : TokenType) : List Char :=
  '[' :: (t.asName ++ [']'])

/-- `Token` from `token.rs`. -/
structure Token where
  token : TokenType
  value : Int
deriving DecidableEq, Repr

/-- The boundary characters the tokenizer splits on (`BOUNDARY_CHARS`). -/
def isBoundary (c : Char) : Bool :=
  c = ' ' || c = '-' || c = '/' || c = '+' || c = ':' || c = '.' || c = ','

/-- One row of the `STANDARD_TOKENS` table. -/
def stok (s : String) (t : TokenType) (v : Int) : List Char × Token :=
  (s.toList, ⟨t, v⟩)

/-- The 93 entries of `STANDARD_TOKENS`. -/
def standardTokens : List (List Char × Token) :=
  [
    stok "jan" .month 1,
    stok "january" .month 1,
    stok "feb" .month 2,
    stok "february" .month 2,
    stok "mar" .month 3,
    stok "march" .month 3,
    stok "apr" .month 4,
    stok "april" .month 4,
    stok "may" .month 5,
    stok "jun" .month 6,
    stok "june" .month 6,
    stok "jul" .month 7,
    stok "july" .month 7,
    stok "aug" .month 8,
    stok "august" .month 8,
    stok "sep" .month 9,
    stok "september" .month 9,
    stok "oct" .month 10,
    stok "october" .month 10,
    stok "nov" .month 11,
    stok "november" .month 11,
    stok "dec" .month 12,
    stok "december" .month 12,
    stok "mon" .weekday 1,
    stok "monday" .weekday 1,
    stok "tue" .weekday 2,
    stok "tuesday" .weekday 2,
    stok "wed" .weekday 3,
    stok "wednesday" .weekday 3,
    stok "thu" .weekday 4,
    stok "thursday" .weekday 4,
    stok "fri" .weekday 5,
    stok "friday" .weekday 5,
    stok "sat" .weekday 6,
    stok "saturday" .weekday 6,
    stok "sun" .weekday 7,
    stok "sunday" .weekday 7,
    stok "1st" .nth 1,
    stok "2nd" .nth 2,
    stok "3rd" .nth 3,
    stok "4th" .nth 4,
    stok "5th" .nth 5,
    stok "6th" .nth 6,
    stok "7th" .nth 7,
    stok "8th" .nth 8,
    stok "9th" .nth 9,
    stok "10th" .nth 10,
    stok "11th" .nth 11,
    stok "12th" .nth 12,
    stok "13th" .nth 13,
    stok "14th" .nth 14,
    stok "15th" .nth 15,
    stok "16th" .nth 16,
    stok "17th" .nth 17,
    stok "18th" .nth 18,
    stok "19th" .nth 19,
    stok "20th" .nth 20,
    stok "21st" .nth 21,
    stok "22nd" .nth 22,
    stok "23rd" .nth 23,
    stok "24th" .nth 24,
    stok "25th" .nth 25,
    stok "26th" .nth 26,
    stok "27th" .nth 27,
    stok "28th" .nth 28,
    stok "29th" .nth 29,
    stok "30th" .nth 30,
    stok "31st" .nth 31,
    stok "sec" .unit 1,
    stok "min" .unit 2,
    stok "mins" .unit 2,
    stok "hr" .unit 3,
    stok "hrs" .unit 3,
    stok "s" .shortUnit 1,
    stok "h" .shortUnit 3,
    stok "d" .shortUnit 4,
    stok "w" .shortUnit 5,
    stok "m" .shortUnit 6,
    stok "y" .shortUnit 7,
    stok "second" .longUnit 1,
    stok "seconds" .longUnit 1,
    stok "minute" .longUnit 2,
    stok "minutes" .longUnit 2,
    stok "hour" .longUnit 3,
    stok "hours" .longUnit 3,
    stok "day" .longUnit 4,
    stok "days" .longUnit 4,
    stok "week" .longUnit 5,
    stok "weeks" .longUnit 5,
    stok "month" .longUnit 6,
    stok "months" .longUnit 6,
    stok "year" .longUnit 7,
    stok "years" .longUnit 7 ]

/-- Association-list lookup (first match wins). -/
def lookupTok : List (List Char × Token) → List Char → Option Token
  | [], _ => none
  | (k, t) :: rest, key => if k = key then some t else lookupTok rest key

/-- `TokenList::find_token`: case-insensitive lookup of a chunk in the
merged table.  The chunks and the built-in keywords are ASCII, where
`Char.toLower` agrees with Rust's `str::to_lowercase`. -/
def findToken (tm : List (List Char × Token)) (source : List Char) :
    Option Token :=
  lookupTok tm (source.map Char.toLower)

/-- The loop of `parse_string_and_number`: distribute the characters of a
chunk over a numeric run and a string run, with the split direction
depending on whether the chunk starts with the prefix character `@`. -/
def psnLoop (pre : Bool) : List Char → List Char → List Char →
    List Char × List Char
  | [], num, str => (str, num)
  | c :: rest, num, str =>
    if !pre && str = [] && c.isDigit then psnLoop pre rest (num ++ [c]) str
    else if pre && num = [] && c.isDigit then psnLoop pre rest (num ++ [c]) str
    else if pre && num ≠ [] then psnLoop pre rest (num ++ [c]) str
    else psnLoop pre rest num (str ++ [c])

/-- Whether a chunk starts with the recognized prefix character `@`
(`TokenList::is_prefixed` applied to the first character; the default for
an empty chunk is irrelevant, `parse_string_and_number` is only called on
non-empty chunks). -/
def isPrefixedChunk (chunk : List Char) : Bool := chunk.headD ' ' = '@'

/-- `parse_string_and_number` from `token.rs`: returns
`(curr_string, curr_number)`.  The final test resets `curr_string` when it
is exactly the prefix character. -/
def parseStringAndNumber (chunk : List Char) : List Char × List Char :=
  if isPrefixedChunk chunk
      ∧ (psnLoop (isPrefixedChunk chunk) chunk [] []).2 ≠ []
      ∧ (psnLoop (isPrefixedChunk chunk) chunk [] []).1 = ['@'] then
    ([], (psnLoop (isPrefixedChunk chunk) chunk [] []).2)
  else psnLoop (isPrefixedChunk chunk) chunk [] []

/-- Rust `str::parse::<i64>`: an optional sign, at least one digit, no
other characters, and the value must fit in a 64-bit signed integer. -/
def parseI64 (s : List Char) : Option Int :=
  let (sign, digits) : Int × List Char := match s with
    | '+' :: rest => (1, rest)
    | '-' :: rest => (-1, rest)
    | _ => (1, s)
  if digits = [] || !digits.all Char.isDigit then none
  else
    let v : Int := sign * (digits.foldl (fun acc c => acc * 10 + ((c.toNat : Int) - 48)) 0)
    if -(2 ^ 63) ≤ v ∧ v ≤ 2 ^ 63 - 1 then some v else none

/-- `parse_number` from `token.rs`: classify a numeric literal into a
token, by the size of the integer. -/
def parseNumber (source : List Char) : Option Token :=
  if source.length = 0 then none
  else
    match parseI64 source with
    | none => none
    | some value =>
      if 10000 ≤ value then some ⟨.timestamp, value⟩
      else if 1000 ≤ value then some ⟨.year, value⟩
      else some ⟨.integer, value⟩

/-- The accumulated output of the tokenizer loop. -/
structure TokState where
  pat : List Char
  vals : List Token
deriving DecidableEq, Repr

/-- The piece of `combo_pattern` contributed by the numeric run: the
number token's placeholder when `parse_number` succeeded, else the raw
numeric run, together with the token pushed onto the value list. -/
def comboNumPiece (nv : Option Token) (currNumber : List Char) :
    List Char × List Token :=
  match nv with
  | some t => (t.token.asPattern, [t])
  | none => (currNumber, [])

/-- The piece of `combo_pattern` contributed by the word run: the found
token's placeholder or the raw word, with the token pushed. -/
def comboStrPiece (sv : Option Token) (currString : List Char) :
    List Char × List Token :=
  match sv with
  | some t => (t.token.asPattern, [t])
  | none => (currString, [])

/-- The body of the tokenizer loop for one completed chunk
(`token.rs` lines 260–313), with `letter` the boundary character that
terminated the chunk (already comma-converted) or `[]` at end of input.
`(parseStringAndNumber chunk).1` is `curr_string` and `.2` is
`curr_number`. -/
def processChunk (tm : List (List Char × Token)) (chunk letter : List Char)
    (st : TokState) : TokState :=
  match findToken tm chunk with
  | some tv => ⟨st.pat ++ tv.token.asPattern ++ letter, st.vals ++ [tv]⟩
  | none =>
    if (parseStringAndNumber chunk).2.length > 0
        ∧ (parseStringAndNumber chunk).1.length = 0 then
      match parseNumber (parseStringAndNumber chunk).2 with
      | some t => ⟨st.pat ++ t.token.asPattern ++ letter, st.vals ++ [t]⟩
      | none => st
    else if (parseStringAndNumber chunk).2.length = 0
        ∧ (parseStringAndNumber chunk).1.length > 0 then
      ⟨st.pat ++ chunk ++ letter, st.vals⟩
    else
      ⟨st.pat
          ++ (comboNumPiece (parseNumber (parseStringAndNumber chunk).2)
                (parseStringAndNumber chunk).2).1
          ++ (comboStrPiece (findToken tm (parseStringAndNumber chunk).1)
                (parseStringAndNumber chunk).1).1
          ++ letter,
        st.vals
          ++ (comboNumPiece (parseNumber (parseStringAndNumber chunk).2)
                (parseStringAndNumber chunk).2).2
          ++ (comboStrPiece (findToken tm (parseStringAndNumber chunk).1)
                (parseStringAndNumber chunk).1).2⟩

/-- The converted boundary letter: an ignored comma becomes a space
(`IGNORED_CHARS` handling in `token.rs`). -/
def boundaryLetter (c : Char) : List Char := if c = ',' then [' '] else [c]

/-- The character iteration of `tokenize` (`token.rs` lines 234–313).
`chunk` holds `source[part_start..part_index]`; a boundary character
flushes it (with the boundary as `letter`, a comma turned into a space),
the final character flushes it with an empty `letter`. -/
def tokLoop (tm : List (List Char × Token)) :
    List Char → List Char → TokState → TokState
  | [], _, st => st
  | c :: rest, chunk, st =>
    if isBoundary c then
      if chunk = [] then
        tokLoop tm rest []
          (if st.vals = [] ∨ boundaryLetter c ≠ [' ']
           then ⟨st.pat ++ boundaryLetter c, st.vals⟩ else st)
      else tokLoop tm rest [] (processChunk tm chunk (boundaryLetter c) st)
    else if rest = [] then processChunk tm (chunk ++ [c]) [] st
    else tokLoop tm rest (chunk ++ [c]) st

/-- ASCII whitespace, as removed by Rust `str::trim` on the pattern. -/
def isWS (c : Char) : Bool :=
  c = ' ' || c = '\t' || c = '\n' || c = '\r'
    || c = '\x0B' || c = '\x0C'

/-- Rust `str::trim`. -/
def trimCh (l : List Char) : List Char :=
  ((l.dropWhile isWS).reverse.dropWhile isWS).reverse

/-- `tokenize` from `token.rs`: turn a source string into a pattern and
the list of extracted tokens.  The custom token table is merged over the
standard one (custom entries win on collision). -/
def tokenize (source : List Char) (custom : List (List Char × Token)) :
    List Char × List Token :=
  if source.length < 1 then ([], [])
  else
    let st := tokLoop (custom ++ standardTokens) source [] ⟨[], []⟩
    (trimCh st.pat, st.vals)

/-! ## C6: numeric-literal classification -/

/-- C6: every numeric literal the tokenizer parses successfully is
classified as Timestamp when its value is at least 10000, as Year when it
lies in [1000, 10000) and as Integer otherwise; in particular `999` is an
Integer, `1000` and `9999` are Years and `10000` is a Timestamp. -/
theorem c6_number_classification :
    (∀ (s : List Char) (t : Token), parseNumber s = some t →
        t.token = (if 10000 ≤ t.value then TokenType.timestamp
                   else if 1000 ≤ t.value then TokenType.year
                   else TokenType.integer))
      ∧ parseNumber "999".toList = some ⟨.integer, 999⟩
      ∧ parseNumber "1000".toList = some ⟨.year, 1000⟩
      ∧ parseNumber "9999".toList = some ⟨.year, 9999⟩
      ∧ parseNumber "10000".toList = some ⟨.timestamp, 10000⟩ := by
  refine ⟨?_, by decide, by decide, by decide, by decide⟩
  intro s t h
  unfold parseNumber at h
  split at h
  · exact absurd h (by simp)
  · split at h
    · exact absurd h (by simp)
    · next value heq =>
      split at h
      · next hv =>
        simp only [Option.some.injEq] at h
        subst h
        simp [hv]
      · next hv =>
        split at h
        · next hv2 =>
          simp only [Option.some.injEq] at h
          subst h
          simp [hv, hv2]
        · next hv2 =>
          simp only [Option.some.injEq] at h
          subst h
          simp [hv, hv2]

/-- Witness for C6 at the concrete literal `10000`. -/
theorem c6_number_classification_witness :
    (Token.mk .timestamp 10000).token
      = (if 10000 ≤ (Token.mk .timestamp 10000).value then TokenType.timestamp
         else if 1000 ≤ (Token.mk .timestamp 10000).value then TokenType.year
         else TokenType.integer) :=
  c6_number_classification.1 "10000".toList ⟨.timestamp, 10000⟩ (by decide)

/-! ## C10: placeholder count vs. token count

The conversion engine advances its cursor into the value list by the number
of `[` characters of each matched template
(`pattern_match.split("[").count() - 1` in `fuzzy.rs`), so the alignment
invariant is about the number of `[` characters of the pattern. -/

/-- The number of bracket placeholders the engine counts in a pattern
piece: its number of `[` characters. -/
def countBrackets (l : List Char) : Nat := l.count '['

theorem countBrackets_append (a b : List Char) :
    countBrackets (a ++ b) = countBrackets a + countBrackets b := by
  simp [countBrackets, List.count_append]

theorem countBrackets_of_not_mem {l : List Char} (h : '[' ∉ l) :
    countBrackets l = 0 := by
  simpa [countBrackets] using List.count_eq_zero.mpr h

theorem countBrackets_asPattern (t : TokenType) :
    countBrackets t.asPattern = 1 := by
  cases t <;> decide

theorem psnLoop_no_bracket (pre : Bool) : ∀ (rest num str : List Char),
    '[' ∉ rest → '[' ∉ num → '[' ∉ str →
    '[' ∉ (psnLoop pre rest num str).1 ∧ '[' ∉ (psnLoop pre rest num str).2
  | [], num, str, _, hnum, hstr => ⟨hstr, hnum⟩
  | c :: rest, num, str, hrest, hnum, hstr => by
    have hrest' : '[' ∉ rest := fun h => hrest (List.mem_cons_of_mem c h)
    have hc : ¬ ('[' = c) := fun h => hrest (h ▸ List.mem_cons_self c rest)
    have hnum' : '[' ∉ num ++ [c] := by
      intro h
      rcases List.mem_append.mp h with h | h
      · exact hnum h
      · exact hc (List.mem_singleton.mp h)
    have hstr' : '[' ∉ str ++ [c] := by
      intro h
      rcases List.mem_append.mp h with h | h
      · exact hstr h
      · exact hc (List.mem_singleton.mp h)
    rw [psnLoop]
    split
    · exact psnLoop_no_bracket pre rest (num ++ [c]) str hrest' hnum' hstr
    · split
      · exact psnLoop_no_bracket pre rest (num ++ [c]) str hrest' hnum' hstr
      · split
        · exact psnLoop_no_bracket pre rest (num ++ [c]) str hrest' hnum' hstr
        · exact psnLoop_no_bracket pre rest num (str ++ [c]) hrest' hnum hstr'

theorem parseStringAndNumber_no_bracket {chunk : List Char}
    (h : '[' ∉ chunk) :
    '[' ∉ (parseStringAndNumber chunk).1
      ∧ '[' ∉ (parseStringAndNumber chunk).2 := by
  have hl := psnLoop_no_bracket (isPrefixedChunk chunk) chunk [] [] h
    (by simp) (by simp)
  unfold parseStringAndNumber
  split
  · exact ⟨by simp, hl.2⟩
  · exact hl

theorem processChunk_inv (tm : List (List Char × Token))
    (chunk letter : List Char) (st : TokState)
    (hchunk : '[' ∉ chunk) (hletter : '[' ∉ letter)
    (hst : countBrackets st.pat = st.vals.length) :
    countBrackets (processChunk tm chunk letter st).pat
      = (processChunk tm chunk letter st).vals.length := by
  have hlet0 : countBrackets letter = 0 := countBrackets_of_not_mem hletter
  have hchunk0 : countBrackets chunk = 0 := countBrackets_of_not_mem hchunk
  have hpsn := parseStringAndNumber_no_bracket hchunk
  have hstr0 : countBrackets (parseStringAndNumber chunk).1 = 0 :=
    countBrackets_of_not_mem hpsn.1
  have hnum0 : countBrackets (parseStringAndNumber chunk).2 = 0 :=
    countBrackets_of_not_mem hpsn.2
  have hnumP : ∀ nv, countBrackets (comboNumPiece nv (parseStringAndNumber chunk).2).1
      = (comboNumPiece nv (parseStringAndNumber chunk).2).2.length := by
    intro nv
    cases nv with
    | some t => simp [comboNumPiece, countBrackets_asPattern]
    | none => simp [comboNumPiece, hnum0]
  have hstrP : ∀ sv, countBrackets (comboStrPiece sv (parseStringAndNumber chunk).1).1
      = (comboStrPiece sv (parseStringAndNumber chunk).1).2.length := by
    intro sv
    cases sv with
    | some t => simp [comboStrPiece, countBrackets_asPattern]
    | none => simp [comboStrPiece, hstr0]
  unfold processChunk
  split
  · next tv _ =>
    simp [countBrackets_append, hlet0, countBrackets_asPattern, hst]
  · split
    · split
      · next t _ =>
        simp [countBrackets_append, hlet0, countBrackets_asPattern, hst]
      · exact hst
    · split
      · simp [countBrackets_append, hlet0, hchunk0, hst]
      · simp [countBrackets_append, hlet0, hst,
          hnumP (parseNumber (parseStringAndNumber chunk).2),
          hstrP (findToken tm (parseStringAndNumber chunk).1)]

theorem tokLoop_inv (tm : List (List Char × Token)) :
    ∀ (rest chunk : List Char) (st : TokState),
    '[' ∉ rest → '[' ∉ chunk → countBrackets st.pat = st.vals.length →
    countBrackets (tokLoop tm rest chunk st).pat
      = (tokLoop tm rest chunk st).vals.length
  | [], _, st, _, _, hst => hst
  | c :: rest, chunk, st, hrest, hchunk, hst => by
    have hrest' : '[' ∉ rest := fun h => hrest (List.mem_cons_of_mem c h)
    have hc : ¬ ('[' = c) := fun h => hrest (h ▸ List.mem_cons_self c rest)
    have hchunk' : '[' ∉ chunk ++ [c] := by
      intro h
      rcases List.mem_append.mp h with h | h
      · exact hchunk h
      · exact hc (List.mem_singleton.mp h)
    have hletter : '[' ∉ boundaryLetter c := by
      unfold boundaryLetter
      split
      · simp
      · intro h
        exact hc (List.mem_singleton.mp h)
    have hletter0 : countBrackets (boundaryLetter c) = 0 :=
      countBrackets_of_not_mem hletter
    rw [tokLoop]
    split
    · split
      · refine tokLoop_inv tm rest [] _ hrest' (by simp) ?_
        split
        · simp [countBrackets_append, hletter0, hst]
        · exact hst
      · exact tokLoop_inv tm rest [] _ hrest' (by simp)
          (processChunk_inv tm chunk _ st hchunk hletter hst)
    · split
      · exact processChunk_inv tm (chunk ++ [c]) [] st hchunk' (by simp) hst
      · exact tokLoop_inv tm rest (chunk ++ [c]) st hrest' hchunk' hst

theorem countBrackets_dropWhileWS :
    ∀ l : List Char, countBrackets (l.dropWhile isWS) = countBrackets l
  | [] => rfl
  | c :: l => by
    rw [List.dropWhile]
    cases h : isWS c with
    | false => rfl
    | true =>
      have hc : ¬ ('[' = c) := by
        intro he
        rw [← he] at h
        simp [isWS] at h
      simp only []
      rw [countBrackets_dropWhileWS l]
      simp [countBrackets, List.count_cons, hc]

theorem countBrackets_trim (l : List Char) :
    countBrackets (trimCh l) = countBrackets l := by
  unfold trimCh
  rw [countBrackets, List.count_reverse, ← countBrackets]
  rw [countBrackets_dropWhileWS]
  rw [countBrackets, List.count_reverse, ← countBrackets]
  rw [countBrackets_dropWhileWS]

/-- C10 (amended): for every source string that does not itself contain a
`[` character — the only way a literal `[` can survive verbatim into the
pattern — and every custom token map, the number of `[` characters in the
pattern returned by `tokenize` equals the length of the returned token
list, so the engine's per-rule cursor advance over the value list stays
aligned with the extracted values. -/
theorem c10_bracket_alignment (source : List Char)
    (custom : List (List Char × Token)) (h : '[' ∉ source) :
    countBrackets (tokenize source custom).1
      = (tokenize source custom).2.length := by
  unfold tokenize
  split
  · rfl
  · simp only []
    rw [countBrackets_trim]
    exact tokLoop_inv (custom ++ standardTokens) source [] ⟨[], []⟩ h
      (by simp) rfl

/-- Witness for C10 at the concrete input `1982-04-32`. -/
theorem c10_bracket_alignment_witness :
    countBrackets (tokenize "1982-04-32".toList []).1
      = (tokenize "1982-04-32".toList []).2.length :=
  c10_bracket_alignment "1982-04-32".toList [] (by decide)

/-- C10 counterexample: the input `[` passes through the tokenizer
verbatim, giving a pattern with one `[` character but an empty token list,
so the claimed equality does not hold for every input string. -/
theorem c10_counterexample :
    countBrackets (tokenize "[".toList []).1 = 1
      ∧ (tokenize "[".toList []).2.length = 0 := by
  decide

/-! ## C7: `is_time_duration` (`token.rs` lines 194–217) -/

/-- The scanning loop of Rust `str::replace`, with explicit fuel so that
it is structurally recursive (and hence evaluates); `replaceAll` below
always supplies enough fuel for the fuel never to run out. -/
def replaceAllGo (pat rep : List Char) : Nat → List Char → List Char
  | 0, s => s
  | fuel + 1, s =>
    match s with
    | [] => []
    | c :: rest =>
      if startsWith (c :: rest) pat = true ∧ pat ≠ [] then
        rep ++ replaceAllGo pat rep fuel ((c :: rest).drop pat.length)
      else
        c :: replaceAllGo pat rep fuel rest

/-- Rust `str::replace` for a non-empty needle: scan left to right, replace
each non-overlapping occurrence.  (The `pat ≠ []` guard only fixes the
behaviour on an empty needle, which `is_time_duration` never uses.) -/
def replaceAll (pat rep s : List Char) : List Char :=
  replaceAllGo pat rep s.length s

theorem replaceAllGo_fuel (pat rep : List Char) :
    ∀ (f₁ f₂ : Nat) (s : List Char), s.length ≤ f₁ → s.length ≤ f₂ →
    replaceAllGo pat rep f₁ s = replaceAllGo pat rep f₂ s
  | 0, f₂, s, h₁, _ => by
    have hs : s = [] := List.length_eq_zero.mp (Nat.le_zero.mp h₁)
    subst hs
    cases f₂ <;> rfl
  | f₁ + 1, 0, s, _, h₂ => by
    have hs : s = [] := List.length_eq_zero.mp (Nat.le_zero.mp h₂)
    subst hs
    rfl
  | f₁ + 1, f₂ + 1, [], _, _ => rfl
  | f₁ + 1, f₂ + 1, c :: rest, h₁, h₂ => by
    rw [replaceAllGo, replaceAllGo]
    simp only [List.length_cons] at h₁ h₂
    split
    · next h =>
      have hp : 1 ≤ pat.length := by
        cases hpat : pat with
        | nil => exact absurd hpat h.2
        | cons p ps => simp
      have hd : ((c :: rest).drop pat.length).length ≤ f₁ := by
        simp only [List.length_drop, List.length_cons]
        omega
      have hd₂ : ((c :: rest).drop pat.length).length ≤ f₂ := by
        simp only [List.length_drop, List.length_cons]
        omega
      rw [replaceAllGo_fuel pat rep f₁ f₂ _ hd hd₂]
    · rw [replaceAllGo_fuel pat rep f₁ f₂ rest (by omega) (by omega)]

/-- `without_integers` in `is_time_duration`. -/
def withoutIntegers (pattern : List Char) : List Char :=
  replaceAll TokenType.integer.asPattern [] pattern

/-- `without_units` in `is_time_duration` (unit, then short, then long). -/
def withoutUnits (l : List Char) : List Char :=
  replaceAll TokenType.longUnit.asPattern []
    (replaceAll TokenType.shortUnit.asPattern []
      (replaceAll TokenType.unit.asPattern [] l))

/-- `without_extra` in `is_time_duration` (`+`, then `-`, then space). -/
def withoutExtra (l : List Char) : List Char :=
  replaceAll [' '] [] (replaceAll ['-'] [] (replaceAll ['+'] [] l))

/-- `is_time_duration` from `token.rs`: the pattern must lose something to
the integer-placeholder replacement, then lose something to the unit
replacements, and then nothing may remain after removing signs and
spaces. -/
def isTimeDuration (pattern : List Char) : Bool :=
  if withoutIntegers pattern = pattern then false
  else if withoutUnits (withoutIntegers pattern) = withoutIntegers pattern then
    false
  else (withoutExtra (withoutUnits (withoutIntegers pattern))).length = 0

/-- The alphabet of the patterns the C7 claim quantifies over: integer
placeholders, the three unit placeholders, and sign or space characters. -/
inductive PatElem where
  | intPh | unitPh | shortPh | longPh | plusCh | minusCh | spaceCh
deriving DecidableEq, Repr

/-- The concrete text of one pattern element. -/
def PatElem.str : PatElem → List Char
  | .intPh => TokenType.integer.asPattern
  | .unitPh => TokenType.unit.asPattern
  | .shortPh => TokenType.shortUnit.asPattern
  | .longPh => TokenType.longUnit.asPattern
  | .plusCh => ['+']
  | .minusCh => ['-']
  | .spaceCh => [' ']

/-- A pattern that consists solely of integer/unit placeholders and
sign/space characters, as the concatenation of its elements. -/
def render : List PatElem → List Char
  | [] => []
  | e :: l => e.str ++ render l

/-- All pattern elements. -/
def allPatElems : List PatElem :=
  [.intPh, .unitPh, .shortPh, .longPh, .plusCh, .minusCh, .spaceCh]

/-- `conflict u p`: comparing `u` against `p` position by position hits a
mismatch before either runs out, so no continuation of `u` can start
with `p`. -/
def conflict : List Char → List Char → Bool
  | _, [] => false
  | [], _ :: _ => false
  | c :: u, p :: ps => if c = p then conflict u ps else true

/-- `noHit e pat`: at every start offset inside `e`, matching `pat` fails
within `e` itself, whatever follows `e`. -/
def noHit (e pat : List Char) : Bool :=
  (List.range e.length).all fun k => conflict (e.drop k) pat

theorem conflict_not_startsWith : ∀ (u p rest : List Char),
    conflict u p = true → startsWith (u ++ rest) p = false
  | _, [], _, h => by simp [conflict] at h
  | [], _ :: _, _, h => by simp [conflict] at h
  | c :: u, p :: ps, rest, h => by
    by_cases hc : c = p
    · simp only [conflict, hc, if_pos rfl] at h
      simp [startsWith, hc, conflict_not_startsWith u ps rest h]
    · simp [startsWith, hc]

theorem replaceAll_cons_no_match {pat rep : List Char} {c : Char}
    {s : List Char} (h : startsWith (c :: s) pat = false) :
    replaceAll pat rep (c :: s) = c :: replaceAll pat rep s := by
  show replaceAllGo pat rep (s.length + 1) (c :: s) = _
  rw [replaceAllGo, if_neg]
  · rfl
  · intro hcon
    rw [h] at hcon
    exact Bool.false_ne_true hcon.1

theorem replaceAll_skip_of_noHit (pat rep : List Char) :
    ∀ (e rest : List Char), noHit e pat = true →
    replaceAll pat rep (e ++ rest) = e ++ replaceAll pat rep rest
  | [], rest, _ => by simp
  | c :: e, rest, h => by
    have h0 : conflict (c :: e) pat = true := by
      have := (List.all_eq_true.mp h) 0 (by simp)
      simpa using this
    have h' : noHit e pat = true := by
      rw [noHit, List.all_eq_true]
      intro k hk
      rw [List.mem_range] at hk
      have := (List.all_eq_true.mp h) (k + 1) (by simp; omega)
      simpa using this
    have hns : startsWith (c :: (e ++ rest)) pat = false := by
      have hx := conflict_not_startsWith (c :: e) pat rest h0
      rwa [List.cons_append] at hx
    rw [List.cons_append, replaceAll_cons_no_match hns,
      replaceAll_skip_of_noHit pat rep e rest h']
    simp

theorem startsWith_append_self : ∀ (p r : List Char),
    startsWith (p ++ r) p = true
  | [], r => by cases r <;> rfl
  | c :: p, r => by simp [startsWith, startsWith_append_self p r]

theorem replaceAll_head_match (pat rep rest : List Char) (hp : pat ≠ []) :
    replaceAll pat rep (pat ++ rest) = rep ++ replaceAll pat rep rest := by
  cases pat with
  | nil => exact absurd rfl hp
  | cons c p =>
    show replaceAllGo (c :: p) rep ((c :: p) ++ rest).length ((c :: p) ++ rest)
      = _
    have hlen : ((c :: p) ++ rest).length = (p ++ rest).length + 1 := by simp
    rw [hlen, List.cons_append, replaceAllGo, if_pos]
    · rw [← List.cons_append, List.drop_left]
      rw [replaceAllGo_fuel (c :: p) rep (p ++ rest).length rest.length rest
          (by simp) (le_refl _)]
      rfl
    · exact ⟨by rw [← List.cons_append]; exact startsWith_append_self _ _,
        by simp⟩

theorem patElem_mem (e : PatElem) : e ∈ allPatElems := by
  cases e <;> decide

theorem patElem_str_ne_nil (e : PatElem) : 1 ≤ e.str.length := by
  cases e <;> decide

/-- Every element either is the needle or can never contain a match of it,
for all the needles `is_time_duration` uses. -/
theorem patElem_noHit :
    (allPatElems.all fun e =>
      ((TokenType.integer.asPattern :: TokenType.unit.asPattern
          :: TokenType.shortUnit.asPattern :: TokenType.longUnit.asPattern
          :: [['+'], ['-'], [' ']] : List (List Char)).all fun pat =>
        (e.str == pat) || noHit e.str pat)) = true := by decide

theorem replaceAll_render {pat : List Char}
    (hpat : pat ∈ (TokenType.integer.asPattern :: TokenType.unit.asPattern
        :: TokenType.shortUnit.asPattern :: TokenType.longUnit.asPattern
        :: [['+'], ['-'], [' ']] : List (List Char))) :
    ∀ l : List PatElem,
    replaceAll pat [] (render l) = render (l.filter fun e => !(e.str == pat))
  | [] => by
    cases pat with
    | nil => simp [replaceAll, replaceAllGo, render]
    | cons c p => simp [replaceAll, replaceAllGo, render]
  | e :: l => by
    by_cases he : e.str = pat
    · have hp : pat ≠ [] := by
        intro h
        rw [h] at he
        have := patElem_str_ne_nil e
        rw [he] at this
        simp at this
      simp only [render]
      rw [he, replaceAll_head_match pat [] (render l) hp]
      rw [List.filter_cons_of_neg (by simp [he])]
      simpa using replaceAll_render hpat l
    · have hnh : noHit e.str pat = true := by
        have h1 := (List.all_eq_true.mp patElem_noHit) e (patElem_mem e)
        have h2 := (List.all_eq_true.mp h1) pat hpat
        rcases (Bool.or_eq_true _ _).mp h2 with h | h
        · exact absurd (by simpa using h) he
        · exact h
      simp only [render]
      rw [replaceAll_skip_of_noHit pat [] e.str (render l) hnh]
      rw [List.filter_cons_of_pos (by simp [he])]
      simp only [render]
      rw [replaceAll_render hpat l]

theorem render_filter_length_le (p : PatElem → Bool) :
    ∀ l : List PatElem, (render (l.filter p)).length ≤ (render l).length
  | [] => le_refl _
  | e :: l => by
    by_cases hp : p e
    · rw [List.filter_cons_of_pos hp]
      simp only [render, List.length_append]
      exact Nat.add_le_add_left (render_filter_length_le p l) _
    · rw [List.filter_cons_of_neg (by simpa using hp)]
      simp only [render, List.length_append]
      exact le_trans (render_filter_length_le p l) (Nat.le_add_left _ _)

theorem render_filter_eq_iff (p : PatElem → Bool) :
    ∀ l : List PatElem,
    (render (l.filter p) = render l) ↔ (∀ e ∈ l, p e = true)
  | [] => by simp
  | e :: l => by
    by_cases hp : p e
    · rw [List.filter_cons_of_pos hp]
      simp only [render]
      rw [List.append_right_inj]
      rw [render_filter_eq_iff p l]
      constructor
      · intro h x hx
        rcases List.mem_cons.mp hx with hx | hx
        · rw [hx]; exact hp
        · exact h x hx
      · intro h x hx
        exact h x (List.mem_cons_of_mem e hx)
    · rw [List.filter_cons_of_neg (by simpa using hp)]
      simp only [render]
      constructor
      · intro h
        have hlen := congrArg List.length h
        rw [List.length_append] at hlen
        have hle := render_filter_length_le p l
        have h1 := patElem_str_ne_nil e
        omega
      · intro h
        exact absurd (h e (List.mem_cons_self e l)) (by simpa using hp)

theorem render_filter_length_lt (p : PatElem → Bool) :
    ∀ (l : List PatElem) (e : PatElem), e ∈ l → p e = false →
    (render (l.filter p)).length < (render l).length
  | [], e, he, _ => absurd he (List.not_mem_nil e)
  | a :: l, e, he, hp => by
    by_cases hpa : p a = true
    · rw [List.filter_cons_of_pos hpa]
      simp only [render, List.length_append]
      have he' : e ∈ l := by
        rcases List.mem_cons.mp he with h | h
        · rw [h] at hp
          rw [hp] at hpa
          cases hpa
        · exact h
      exact Nat.add_lt_add_left (render_filter_length_lt p l e he' hp) _
    · rw [List.filter_cons_of_neg hpa]
      simp only [render, List.length_append]
      have h1 := patElem_str_ne_nil a
      have h2 := render_filter_length_le p l
      omega

/-- The elements removed by the integer stage of `is_time_duration`. -/
def dropInt (l : List PatElem) : List PatElem :=
  l.filter fun e => !(e.str == TokenType.integer.asPattern)

/-- The elements removed by the `[unit]` stage. -/
def dropUnit (l : List PatElem) : List PatElem :=
  l.filter fun e => !(e.str == TokenType.unit.asPattern)

/-- The elements removed by the `[short_unit]` stage. -/
def dropShort (l : List PatElem) : List PatElem :=
  l.filter fun e => !(e.str == TokenType.shortUnit.asPattern)

/-- The elements removed by the `[long_unit]` stage. -/
def dropLong (l : List PatElem) : List PatElem :=
  l.filter fun e => !(e.str == TokenType.longUnit.asPattern)

theorem withoutIntegers_render (l : List PatElem) :
    withoutIntegers (render l) = render (dropInt l) :=
  replaceAll_render (by decide) l

theorem withoutUnits_render (l : List PatElem) :
    withoutUnits (render l) = render (dropLong (dropShort (dropUnit l))) := by
  have h1 : replaceAll TokenType.unit.asPattern [] (render l)
      = render (dropUnit l) := replaceAll_render (by decide) l
  have h2 : replaceAll TokenType.shortUnit.asPattern [] (render (dropUnit l))
      = render (dropShort (dropUnit l)) :=
    replaceAll_render (by decide) (dropUnit l)
  have h3 : replaceAll TokenType.longUnit.asPattern []
        (render (dropShort (dropUnit l)))
      = render (dropLong (dropShort (dropUnit l))) :=
    replaceAll_render (by decide) (dropShort (dropUnit l))
  unfold withoutUnits
  rw [h1, h2, h3]

theorem render_elems_subset_signs :
    ∀ e : PatElem,
    (!(e.str == TokenType.integer.asPattern)) = true →
    (!(e.str == TokenType.unit.asPattern)) = true →
    (!(e.str == TokenType.shortUnit.asPattern)) = true →
    (!(e.str == TokenType.longUnit.asPattern)) = true →
    e = .plusCh ∨ e = .minusCh ∨ e = .spaceCh := by
  intro e
  cases e <;> decide

/-- The elements removed by the `+` stage. -/
def dropPlus (l : List PatElem) : List PatElem :=
  l.filter fun e => !(e.str == ['+'])

/-- The elements removed by the `-` stage. -/
def dropMinus (l : List PatElem) : List PatElem :=
  l.filter fun e => !(e.str == ['-'])

/-- The elements removed by the space stage. -/
def dropSpace (l : List PatElem) : List PatElem :=
  l.filter fun e => !(e.str == [' '])

theorem withoutExtra_signs (m : List PatElem)
    (hm : ∀ e ∈ m, e = PatElem.plusCh ∨ e = PatElem.minusCh ∨ e = PatElem.spaceCh) :
    withoutExtra (render m) = [] := by
  have h1 : replaceAll ['+'] [] (render m) = render (dropPlus m) :=
    replaceAll_render (by decide) m
  have h2 : replaceAll ['-'] [] (render (dropPlus m))
      = render (dropMinus (dropPlus m)) :=
    replaceAll_render (by decide) (dropPlus m)
  have h3 : replaceAll [' '] [] (render (dropMinus (dropPlus m)))
      = render (dropSpace (dropMinus (dropPlus m))) :=
    replaceAll_render (by decide) (dropMinus (dropPlus m))
  have hempty : dropSpace (dropMinus (dropPlus m)) = [] := by
    rw [dropSpace, List.filter_eq_nil_iff]
    intro e he
    rcases List.mem_filter.mp he with ⟨he2, hp2⟩
    rcases List.mem_filter.mp he2 with ⟨he1, hp1⟩
    rcases hm e he1 with h | h | h
    · rw [h] at hp1; cases hp1
    · rw [h] at hp2; cases hp2
    · rw [h]; decide
  unfold withoutExtra
  rw [h1, h2, h3, hempty]
  rfl

/-- One replacement stage of `is_time_duration` is the identity on a
rendered pattern exactly when no element of the needle's kind occurs. -/
theorem replace_stage_eq_iff (f : PatElem) (l : List PatElem) :
    (replaceAll f.str [] (render l) = render l) ↔ ∀ e ∈ l, ¬ e = f := by
  rw [replaceAll_render (by cases f <;> decide) l]
  rw [render_filter_eq_iff]
  constructor
  · intro h e he
    exact (by cases f <;> cases e <;> decide :
      ((!(e.str == f.str)) = true) ↔ ¬ e = f).mp (h e he)
  · intro h e he
    exact (by cases f <;> cases e <;> decide :
      ((!(e.str == f.str)) = true) ↔ ¬ e = f).mpr (h e he)

/-- C7 counterexample: the pattern `[int]` consists solely of an integer
placeholder, yet `is_time_duration` returns false for it, because the
function also requires at least one unit placeholder (and, symmetrically,
at least one integer placeholder), so the claimed iff fails. -/
theorem c7_counterexample :
    render [PatElem.intPh] = "[int]".toList
      ∧ isTimeDuration "[int]".toList = false := by
  constructor
  · rfl
  · decide

/-- C7 (amended): on every pattern that consists solely of integer/unit
placeholders and sign or space characters (a rendered element sequence),
`is_time_duration` returns true iff the pattern contains at least one
integer placeholder and at least one unit placeholder (of any of the three
unit kinds).  The restriction to rendered sequences is essential: the
pattern `[[int]unit]` — which contains a bare `[` and is not a
concatenation of the allowed elements — also returns true, because the
`[int]` replacement turns it into `[unit]`, which the unit replacement
then empties. -/
theorem c7_time_duration_iff (l : List PatElem) :
    (isTimeDuration (render l) = true
      ↔ (PatElem.intPh ∈ l
          ∧ (PatElem.unitPh ∈ l ∨ PatElem.shortPh ∈ l ∨ PatElem.longPh ∈ l)))
    ∧ isTimeDuration "[[int]unit]".toList = true := by
  refine And.intro ?_ (by decide)
  by_cases hInt : PatElem.intPh ∈ l
  · have hA : ¬ (withoutIntegers (render l) = render l) := by
      intro h
      exact ((replace_stage_eq_iff PatElem.intPh l).mp h) PatElem.intPh hInt rfl
    by_cases hU : PatElem.unitPh ∈ l ∨ PatElem.shortPh ∈ l ∨ PatElem.longPh ∈ l
    · have hsigns : ∀ e ∈ dropLong (dropShort (dropUnit (dropInt l))),
          e = PatElem.plusCh ∨ e = PatElem.minusCh ∨ e = PatElem.spaceCh := by
        intro e he
        rcases List.mem_filter.mp he with ⟨he3, hp4⟩
        rcases List.mem_filter.mp he3 with ⟨he2, hp3⟩
        rcases List.mem_filter.mp he2 with ⟨he1, hp2⟩
        rcases List.mem_filter.mp he1 with ⟨_, hp1⟩
        exact render_elems_subset_signs e hp1 hp2 hp3 hp4
      have hB : ¬ (withoutUnits (withoutIntegers (render l))
          = withoutIntegers (render l)) := by
        rw [withoutIntegers_render, withoutUnits_render]
        intro h
        have hlen := congrArg List.length h
        have hle3 : (render (dropLong (dropShort (dropUnit (dropInt l))))).length
            ≤ (render (dropShort (dropUnit (dropInt l)))).length :=
          render_filter_length_le _ (dropShort (dropUnit (dropInt l)))
        have hle2 : (render (dropShort (dropUnit (dropInt l)))).length
            ≤ (render (dropUnit (dropInt l))).length :=
          render_filter_length_le _ (dropUnit (dropInt l))
        have hle1 : (render (dropUnit (dropInt l))).length
            ≤ (render (dropInt l)).length :=
          render_filter_length_le _ (dropInt l)
        rcases hU with hu | hu | hu
        · have hmem : PatElem.unitPh ∈ dropInt l :=
            List.mem_filter.mpr ⟨hu, by decide⟩
          have hlt : (render (dropUnit (dropInt l))).length
              < (render (dropInt l)).length :=
            render_filter_length_lt _ (dropInt l)
              PatElem.unitPh hmem (by decide)
          omega
        · have hmem : PatElem.shortPh ∈ dropUnit (dropInt l) :=
            List.mem_filter.mpr ⟨List.mem_filter.mpr ⟨hu, by decide⟩, by decide⟩
          have hlt : (render (dropShort (dropUnit (dropInt l)))).length
              < (render (dropUnit (dropInt l))).length :=
            render_filter_length_lt _ (dropUnit (dropInt l))
              PatElem.shortPh hmem (by decide)
          omega
        · have hmem : PatElem.longPh ∈ dropShort (dropUnit (dropInt l)) :=
            List.mem_filter.mpr ⟨List.mem_filter.mpr
              ⟨List.mem_filter.mpr ⟨hu, by decide⟩, by decide⟩, by decide⟩
          have hlt : (render (dropLong (dropShort (dropUnit (dropInt l))))).length
              < (render (dropShort (dropUnit (dropInt l)))).length :=
            render_filter_length_lt _ (dropShort (dropUnit (dropInt l)))
              PatElem.longPh hmem (by decide)
          omega
      unfold isTimeDuration
      rw [if_neg hA, if_neg hB]
      rw [withoutIntegers_render, withoutUnits_render,
        withoutExtra_signs _ hsigns]
      simp [hInt, hU]
    · have hB : withoutUnits (withoutIntegers (render l))
          = withoutIntegers (render l) := by
        push_neg at hU
        rw [withoutIntegers_render]
        unfold withoutUnits
        have hnu : ∀ e ∈ dropInt l, ¬ e = PatElem.unitPh := by
          intro e he hc
          rw [hc] at he
          exact hU.1 (List.mem_filter.mp he).1
        have hns : ∀ e ∈ dropInt l, ¬ e = PatElem.shortPh := by
          intro e he hc
          rw [hc] at he
          exact hU.2.1 (List.mem_filter.mp he).1
        have hnl : ∀ e ∈ dropInt l, ¬ e = PatElem.longPh := by
          intro e he hc
          rw [hc] at he
          exact hU.2.2 (List.mem_filter.mp he).1
        have e1 : replaceAll TokenType.unit.asPattern [] (render (dropInt l))
            = render (dropInt l) :=
          (replace_stage_eq_iff PatElem.unitPh (dropInt l)).mpr hnu
        have e2 : replaceAll TokenType.shortUnit.asPattern []
              (render (dropInt l)) = render (dropInt l) :=
          (replace_stage_eq_iff PatElem.shortPh (dropInt l)).mpr hns
        have e3 : replaceAll TokenType.longUnit.asPattern []
              (render (dropInt l)) = render (dropInt l) :=
          (replace_stage_eq_iff PatElem.longPh (dropInt l)).mpr hnl
        rw [e1, e2, e3]
      unfold isTimeDuration
      rw [if_neg hA, if_pos hB]
      simp [hU]
  · have hA : withoutIntegers (render l) = render l := by
      have h : ∀ e ∈ l, ¬ e = PatElem.intPh := by
        intro e he hc
        rw [hc] at he
        exact hInt he
      exact (replace_stage_eq_iff PatElem.intPh l).mpr h
    unfold isTimeDuration
    rw [if_pos hA]
    simp [hInt]

/-! ## Calendar arithmetic (`convert.rs`)

`chrono`'s `DateTime<FixedOffset>` is embedded as an epoch-second instant
with a nanosecond component and a fixed offset; civil (local) fields are
derived through the standard proleptic-Gregorian day-number bijection.
`chrono` limits dates to years `-262144 ..= 262143`; operations that
`chrono` reports as `None` and the Rust code `unwrap`s (a panic) are
embedded as `none`. -/

/-- Machine-integer casts of the Rust code: `as i64` (wrapping). -/
def i64wrap (x : Int) : Int := (x + 2 ^ 63).emod (2 ^ 64) - 2 ^ 63

/-- `as i32` (wrapping). -/
def i32wrap (x : Int) : Int := (x + 2 ^ 31).emod (2 ^ 32) - 2 ^ 31

/-- `as u32` (wrapping). -/
def u32wrap (x : Int) : Int := x.emod (2 ^ 32)

/-- `f64 as i8` (saturating, as Rust float-to-int casts). -/
def i8sat (x : Int) : Int := if x < -128 then -128 else if 127 < x then 127 else x

/-- Days since 1970-01-01 of the civil date `(y, m, d)`
(proleptic Gregorian; Howard Hinnant's `days_from_civil`). -/
def civilToDays (y m d : Int) : Int :=
  let y' := if m ≤ 2 then y - 1 else y
  let era := y'.fdiv 400
  let yoe := y' - era * 400
  let mp := if 2 < m then m - 3 else m + 9
  let doy := (153 * mp + 2).ediv 5 + d - 1
  let doe := yoe * 365 + yoe.ediv 4 - yoe.ediv 100 + doy
  era * 146097 + doe - 719468

/-- The civil date `(y, m, d)` of a day number (`civil_from_days`). -/
def civilFromDays (z : Int) : Int × Int × Int :=
  let z' := z + 719468
  let era := z'.fdiv 146097
  let doe := z' - era * 146097
  let yoe := (doe - doe.ediv 1460 + doe.ediv 36524 - doe.ediv 146096).ediv 365
  let y := yoe + era * 400
  let doy := doe - (365 * yoe + yoe.ediv 4 - yoe.ediv 100)
  let mp := (5 * doy + 2).ediv 153
  let d := doy - (153 * mp + 2).ediv 5 + 1
  let m := if mp < 10 then mp + 3 else mp - 9
  (if m ≤ 2 then y + 1 else y, m, d)

/-- The number of days of month `m` of year `y`, as the day-number
difference between consecutive month starts (how `into_month_day`
measures it). -/
def daysInMonth (y m : Int) : Int :=
  let nm := if m = 12 then 1 else m + 1
  let ny := if m = 12 then y + 1 else y
  civilToDays ny nm 1 - civilToDays y m 1

/-- `chrono` date validity: year within `chrono`'s supported range and a
real day of the month. -/
def validYMD (y m d : Int) : Bool :=
  decide (-262144 ≤ y ∧ y ≤ 262143 ∧ 1 ≤ m ∧ m ≤ 12 ∧ 1 ≤ d
    ∧ d ≤ daysInMonth y m)

/-- `chrono DateTime<FixedOffset>`: an instant (epoch seconds + nanoseconds
into the second) together with a fixed offset in seconds. -/
structure DT where
  secs : Int
  nanos : Nat
  offset : Int
deriving DecidableEq, Repr

/-- Smallest instant `chrono` supports (start of year -262144, UTC). -/
def minSecs : Int := civilToDays (-262144) 1 1 * 86400

/-- Largest whole-second instant `chrono` supports
(end of year 262143, UTC). -/
def maxSecs : Int := civilToDays 262143 12 31 * 86400 + 86399

/-- Local wall-clock seconds of the instant. -/
def localSecs (t : DT) : Int := t.secs + t.offset

/-- Local day number. -/
def localDays (t : DT) : Int := (localSecs t).ediv 86400

/-- Seconds into the local day. -/
def secsOfDay (t : DT) : Int := (localSecs t).emod 86400

/-- Local civil `(year, month, day)`. -/
def localCivil (t : DT) : Int × Int × Int := civilFromDays (localDays t)

/-- `Datelike::year` of the local time. -/
def yearOf (t : DT) : Int := (localCivil t).1

/-- `Datelike::month` of the local time. -/
def monthOf (t : DT) : Int := (localCivil t).2.1

/-- `Datelike::day` of the local time. -/
def dayOf (t : DT) : Int := (localCivil t).2.2

/-- `weekday().num_days_from_monday() + 1`: Monday = 1 .. Sunday = 7
(1970-01-01 was a Thursday). -/
def weekdayNumOf (t : DT) : Int := (localDays t + 3).emod 7 + 1

/-- `weekday().num_days_from_sunday()`: Sunday = 0 .. Saturday = 6. -/
def daysFromSunday (t : DT) : Int := (localDays t + 4).emod 7

/-- Replace the local civil date, keeping the time of day; `none` when the
new date is invalid (this is what `with_year`, `with_month` and `with_day`
share). -/
def rebuildDate (t : DT) (y m d : Int) : Option DT :=
  if validYMD y m d then
    some { t with secs := civilToDays y m d * 86400 + secsOfDay t - t.offset }
  else none

/-- `chrono Datelike::with_day` on the local time. -/
def withDay (t : DT) (d : Int) : Option DT :=
  rebuildDate t (yearOf t) (monthOf t) d

/-- `chrono Datelike::with_month` on the local time. -/
def withMonth (t : DT) (m : Int) : Option DT :=
  rebuildDate t (yearOf t) m (dayOf t)

/-- `chrono Datelike::with_year` on the local time. -/
def withYear (t : DT) (y : Int) : Option DT :=
  rebuildDate t y (monthOf t) (dayOf t)

/-- Replace the local time of day (used by `time_hms` after its own range
validation) and zero the nanoseconds. -/
def withTime (t : DT) (h mi s : Int) : DT :=
  { t with
    secs := localDays t * 86400 + h * 3600 + mi * 60 + s - t.offset
    nanos := 0 }

/-- `DateTime + Duration` (whole seconds): `chrono` panics when the result
leaves the supported range, embedded as `none`. -/
def addDur (t : DT) (ds : Int) : Option DT :=
  if minSecs ≤ t.secs + ds ∧ t.secs + ds ≤ maxSecs then
    some { t with secs := t.secs + ds }
  else none

/-- Result of a `convert.rs`/rule call: success, a graceful `Err(())`, or a
panic (an `unwrap` of `None` / an overflowing `chrono` operator). -/
inductive RRes where
  | ok : DT → RRes
  | err : RRes
  | panicked : RRes
deriving DecidableEq, Repr

/-- The `Change` enum of `convert.rs`. -/
inductive Change where
  | first | last | prev | next | none
deriving DecidableEq, Repr

/-- `chrono DateTime::from_timestamp` (UTC): `None` outside the supported
range or for an invalid nanosecond count. -/
def fromTimestamp (sec nsec : Int) : Option DT :=
  if 0 ≤ nsec ∧ nsec < 2000000000 ∧ minSecs ≤ sec ∧ sec ≤ maxSecs then
    some ⟨sec, nsec.toNat, 0⟩
  else none

/-- `date_stamp` from `convert.rs`: `DateTime::from_timestamp(sec, (ms *
1_000_000) as u32).unwrap().fixed_offset()`; the `unwrap` of an
out-of-range timestamp is a panic (`none`). -/
def date_stamp (sec ms : Int) : Option DT :=
  fromTimestamp sec (u32wrap (i64wrap (ms * 1000000)))

/-- `date_ymd` from `convert.rs`: `with_day(1).unwrap()` (a panic if it
ever failed; it cannot, day 1 always exists), then `with_year`,
`with_month`, `with_day`, each `None` becoming `Err(())`. -/
def date_ymd (t : DT) (year month day : Int) : RRes :=
  match withDay t 1 with
  | Option.none => .panicked
  | some t1 =>
    match withYear t1 (i32wrap year) with
    | Option.none => .err
    | some t2 =>
      match withMonth t2 (u32wrap month) with
      | Option.none => .err
      | some t3 =>
        match withDay t3 (u32wrap day) with
        | Option.none => .err
        | some t4 => .ok t4

/-- `into_month_day` from `convert.rs`: a day at most 28 passes through;
otherwise the month length is measured as next month's start minus this
month's start (`NaiveDate::from_ymd_opt(..).unwrap()` panics — `none` —
on an invalid month or an out-of-range year) and the day is clamped. -/
def into_month_day (y m d : Int) : Option Int :=
  if d ≤ 28 then some d
  else
    let nm := if m = 12 then 1 else m + 1
    let ny := if m = 12 then y + 1 else y
    if validYMD y m 1 ∧ validYMD ny nm 1 then
      some (min (civilToDays ny nm 1 - civilToDays y m 1) d)
    else Option.none

/-- `offset_months` from `convert.rs`.  When the target month stays within
1..12 the day is clamped and `with_day`/`with_month` applied; otherwise the
target year/month are computed via the carry arithmetic of the code (with
its `i32`/`u32` wrapping and the `f64 as i8` saturation) and
`with_day`/`with_month`/`with_year` applied in that order — each `unwrap`
of a failed step is a panic (`none`). -/
def offset_months (t : DT) (amount : Int) : Option DT :=
  let newMonth := i32wrap (monthOf t + i32wrap amount)
  if 1 ≤ newMonth ∧ newMonth ≤ 12 then
    match into_month_day (yearOf t) newMonth (dayOf t) with
    | Option.none => Option.none
    | some targetDay =>
      (withDay t targetDay).bind fun t1 => withMonth t1 newMonth
  else
    let offsetMonths := |newMonth|
    let offsetYears := i8sat (offsetMonths / 12)
    let targetMonth := if newMonth < 1
      then u32wrap (12 - u32wrap (offsetMonths - offsetYears * 12))
      else u32wrap (u32wrap (monthOf t + u32wrap amount) - 12 * offsetYears)
    let targetYear := if newMonth < 1
      then i32wrap (yearOf t - offsetYears - 1)
      else i32wrap (yearOf t + offsetYears)
    match into_month_day targetYear targetMonth (dayOf t) with
    | Option.none => Option.none
    | some targetDay =>
      (withDay t targetDay).bind fun t1 =>
        (withMonth t1 targetMonth).bind fun t2 => withYear t2 targetYear

/-- `offset_range_month` from `convert.rs`. -/
def offset_range_month (t : DT) (month : Int) (change : Change) : RRes :=
  if change = Change.first then date_ymd t (yearOf t) month 1
  else if change = Change.last then
    match into_month_day (yearOf t) (u32wrap month) 32 with
    | Option.none => .panicked
    | some lastDay => date_ymd t (yearOf t) month lastDay
  else .ok t

/-- `offset_weekday` from `convert.rs`: correction of ±1 week, then the
day delta to the target weekday; the two `Duration` additions are each
range-checked (`chrono` panics on overflow). -/
def offset_weekday (t : DT) (newWeekday : Int) (change : Change) :
    Option DT :=
  (addDur t ((if change = Change.prev ∧ weekdayNumOf t ≤ newWeekday then -1
      else if change = Change.next ∧ newWeekday ≤ weekdayNumOf t then 1
      else (0 : Int)) * 604800)).bind fun t1 =>
    addDur t1 ((newWeekday - weekdayNumOf t) * 86400)

/-- `offset_weeks` from `convert.rs`: back to the start of the week (per
the configured start day), then the requested number of whole weeks. -/
def offset_weeks (t : DT) (amount : Int) (startDay : Int) : Option DT :=
  let dss := if startDay = 1 then (localDays t + 3).emod 7 else daysFromSunday t
  (addDur t (-(dss * 86400))).bind fun t1 => addDur t1 (amount * 604800)

/-- `offset_years` from `convert.rs`: outside February only the year
changes; in February the day is first parked on the 1st, the year set, and
the day re-clamped to the target February's length. -/
def offset_years (t : DT) (amount : Int) : Option DT :=
  let newYear := i32wrap (yearOf t + i32wrap amount)
  if monthOf t ≠ 2 then withYear t newYear
  else
    (withDay t 1).bind fun t1 =>
      (withYear t1 newYear).bind fun t2 =>
        (into_month_day newYear 2 (dayOf t)).bind fun d => withDay t2 d

/-- `time_hms` from `convert.rs`: explicit range validation (`Err` on
failure), then the local time of day is set and nanoseconds zeroed. -/
def time_hms (t : DT) (hour mn sec : Int) : RRes :=
  if hour < 0 ∨ 23 < hour ∨ mn < 0 ∨ 59 < mn ∨ sec < 0 ∨ 59 < sec then .err
  else .ok (withTime t (u32wrap hour) (u32wrap mn) (u32wrap sec))

/-- Build the embedded datetime with the given local civil fields and
offset (test/witness helper; `DateTime::parse_from_rfc3339` analogue). -/
def mkLocal (y m d h mi s : Int) (off : Int) : DT :=
  ⟨civilToDays y m d * 86400 + h * 3600 + mi * 60 + s - off, 0, off⟩

theorem addDur_some_bounds {t : DT} {d : Int} {u : DT}
    (h : addDur t d = some u) : minSecs ≤ u.secs ∧ u.secs ≤ maxSecs := by
  unfold addDur at h
  split at h
  · next hc =>
    have hu := Option.some.inj h
    subst hu
    exact hc
  · cases h

theorem addDur_self_zero (u : DT) (h1 : minSecs ≤ u.secs)
    (h2 : u.secs ≤ maxSecs) : addDur u 0 = some u := by
  unfold addDur
  simp only [Int.add_zero]
  rw [if_pos ⟨h1, h2⟩]

/-! ## C2: `next [wday]` on the same weekday -/

/-- C2 counterexample: on Wednesday 2022-02-23, `next [wday]` with target
Wednesday (3) yields 2022-03-02, one week later — not the current day as
the claim states (this is also what the repository's own
`test_offset_weekdays` expects). -/
theorem c2_counterexample :
    weekdayNumOf (mkLocal 2022 2 23 15 22 28 7200) = 3
      ∧ offset_weekday (mkLocal 2022 2 23 15 22 28 7200) 3 Change.next
          = some (mkLocal 2022 3 2 15 22 28 7200)
      ∧ mkLocal 2022 3 2 15 22 28 7200 ≠ mkLocal 2022 2 23 15 22 28 7200 := by
  decide

/-- C2 (amended): for every starting datetime whose weekday equals the
named weekday, `next [wday]` (`offset_weekday` with `Change::Next`) moves
exactly seven days forward — the same-day tie resolves to the occurrence
one week later, because the `+1 week` correction applies when the target
weekday is less than **or equal to** the current one. -/
theorem c2_next_same_weekday (t : DT) (w : Int)
    (h : weekdayNumOf t = w) :
    offset_weekday t w Change.next = addDur t (7 * 86400) := by
  unfold offset_weekday
  rw [← h]
  rw [if_neg (by simp : ¬(Change.next = Change.prev
    ∧ weekdayNumOf t ≤ weekdayNumOf t))]
  rw [if_pos ⟨rfl, le_refl _⟩]
  simp only [Int.sub_self, Int.zero_mul, Int.one_mul]
  cases haD : addDur t 604800 with
  | none =>
    have h7 : (604800 : Int) = 7 * 86400 := by norm_num
    rw [h7] at haD
    rw [haD]
    rfl
  | some t1 =>
    have hb := addDur_some_bounds haD
    have h7 : (604800 : Int) = 7 * 86400 := by norm_num
    rw [h7] at haD
    rw [haD]
    simp only [Option.bind]
    exact addDur_self_zero t1 hb.1 hb.2

/-- Witness for C2 at Wednesday 2022-02-23T15:22:28+02:00. -/
theorem c2_next_same_weekday_witness :
    weekdayNumOf (mkLocal 2022 2 23 15 22 28 7200) = 3
      ∧ offset_weekday (mkLocal 2022 2 23 15 22 28 7200) 3 Change.next
          = addDur (mkLocal 2022 2 23 15 22 28 7200) (7 * 86400) :=
  ⟨by decide, c2_next_same_weekday (mkLocal 2022 2 23 15 22 28 7200) 3
    (by decide)⟩

/-! ## C8: day clamping when stepping months/years -/

/-- C8: stepping the last-of-month date 2023-05-31 by +9 months targets
February 2024 and clamps the day to 29; but the code applies `with_month`
**before** `with_year`, asking `chrono` for 2023-02-29, which does not
exist — the `unwrap` panics (`none`), so the step produces no (valid)
date at all, contradicting the claim. -/
theorem c8_offset_months_panics :
    dayOf (mkLocal 2023 5 31 0 0 0 0) = daysInMonth 2023 5
      ∧ offset_months (mkLocal 2023 5 31 0 0 0 0) 9 = Option.none := by
  decide

/-! ## The conversion engine (`fuzzy.rs`) -/

/-- `TimeUnit` from `fuzzy.rs`. -/
inductive TimeUnit where
  | days | hours | minutes | months | seconds | weeks | years | none
deriving DecidableEq, Repr

/-- `TimeUnit::from_int`. -/
def TimeUnit.from_int (value : Int) : TimeUnit :=
  if value = 1 then .seconds
  else if value = 2 then .minutes
  else if value = 3 then .hours
  else if value = 4 then .days
  else if value = 5 then .weeks
  else if value = 6 then .months
  else if value = 7 then .years
  else .none

/-- The `Rules` configuration of `fuzzy.rs`. -/
structure Rules where
  week_start_mon : Bool
deriving DecidableEq, Repr

/-- `Rules::week_start_day`. -/
def Rules.week_start_day (r : Rules) : Int :=
  if r.week_start_mon then 1 else 7

/-- A `chrono` result that the Rust code wraps in `Ok` (panics stay
panics). -/
def liftOpt : Option DT → RRes
  | some t => .ok t
  | Option.none => .panicked

/-- The `?` operator on a rule result. -/
def andThen : RRes → (DT → RRes) → RRes
  | .ok t, f => f t
  | .err, _ => .err
  | .panicked, _ => .panicked

/-- `v[i]` on the value vector: indexing out of bounds panics. -/
def ruleV (v : List Int) (i : Nat) (k : Int → RRes) : RRes :=
  match v.get? i with
  | some x => k x
  | Option.none => .panicked

/-- `FuzzyDate::date_stamp`. -/
def fd_date_stamp (sec ms : Int) : RRes := liftOpt (date_stamp sec ms)

/-- `FuzzyDate::offset_weekday`. -/
def fd_offset_weekday (t : DT) (wd : Int) (change : Change) : RRes :=
  liftOpt (offset_weekday t wd change)

/-- `FuzzyDate::offset_range_month`: only a day target is supported. -/
def fd_offset_range_month (t : DT) (target : TimeUnit) (month : Int)
    (change : Change) : RRes :=
  if target = TimeUnit.days then offset_range_month t month change
  else .err

/-- `FuzzyDate::offset_range_unit`: only a day-within-months range is
supported; `with_day(new_day).unwrap()` panics on failure. -/
def fd_offset_range_unit (t : DT) (target unit : TimeUnit) (change : Change) :
    RRes :=
  if ¬(target = TimeUnit.days ∧ unit = TimeUnit.months) then .err
  else if change = Change.last then
    match into_month_day (yearOf t) (monthOf t) 32 with
    | Option.none => .panicked
    | some d =>
      match withDay t d with
      | Option.none => .panicked
      | some u => .ok u
  else
    match withDay t 1 with
    | Option.none => .panicked
    | some u => .ok u

/-- `FuzzyDate::offset_unit`: dispatch on the unit
(`Duration::minutes` is 60 s, `Duration::hours` 3600 s, `Duration::days`
86400 s; weeks/months/years go through the calendar layer). -/
def fd_offset_unit (t : DT) (target : TimeUnit) (amount : Int) (r : Rules) :
    RRes :=
  match target with
  | .seconds => liftOpt (addDur t amount)
  | .minutes => liftOpt (addDur t (amount * 60))
  | .hours => liftOpt (addDur t (amount * 3600))
  | .days => liftOpt (addDur t (amount * 86400))
  | .weeks => liftOpt (offset_weeks t amount r.week_start_day)
  | .months => liftOpt (offset_months t amount)
  | .years => liftOpt (offset_years t amount)
  | .none => .ok t

/-- `FuzzyDate::time_reset`. -/
def fd_time_reset (t : DT) : RRes := time_hms t 0 0 0

/-- A rule of the pattern table. -/
def FuzzyRule : Type := DT → List Int → Rules → RRes

/-- One entry of the pattern table. -/
def fpEntry (s : String) (f : FuzzyRule) : List Char × FuzzyRule :=
  (s.toList, f)

/-- The 41 `FUZZY_PATTERNS` entries of `fuzzy.rs`, keyed by their pattern
string. -/
def FUZZY_PATTERNS : List (List Char × FuzzyRule) :=
  [ fpEntry "now" (fun c _ _ => .ok c),
    fpEntry "today" (fun c _ _ => fd_time_reset c),
    fpEntry "midnight" (fun c _ _ => fd_time_reset c),
    fpEntry "yesterday" (fun c _ r => fd_offset_unit c .days (-1) r),
    fpEntry "tomorrow" (fun c _ r => fd_offset_unit c .days 1 r),
    fpEntry "this [wday]" (fun c v _ => ruleV v 0 fun x =>
      fd_offset_weekday c x Change.none),
    fpEntry "prev [wday]" (fun c v _ => ruleV v 0 fun x =>
      fd_offset_weekday c x Change.prev),
    fpEntry "last [wday]" (fun c v _ => ruleV v 0 fun x =>
      fd_offset_weekday c x Change.prev),
    fpEntry "next [wday]" (fun c v _ => ruleV v 0 fun x =>
      fd_offset_weekday c x Change.next),
    fpEntry "this [long_unit]" (fun c v r => ruleV v 0 fun x =>
      fd_offset_unit c (TimeUnit.from_int x) 0 r),
    fpEntry "prev [long_unit]" (fun c v r => ruleV v 0 fun x =>
      fd_offset_unit c (TimeUnit.from_int x) (-1) r),
    fpEntry "last [long_unit]" (fun c v r => ruleV v 0 fun x =>
      fd_offset_unit c (TimeUnit.from_int x) (-1) r),
    fpEntry "next [long_unit]" (fun c v r => ruleV v 0 fun x =>
      fd_offset_unit c (TimeUnit.from_int x) 1 r),
    fpEntry "-[int][unit]" (fun c v r => ruleV v 0 fun a => ruleV v 1 fun u =>
      fd_offset_unit c (TimeUnit.from_int u) (0 - a) r),
    fpEntry "-[int][short_unit]" (fun c v r => ruleV v 0 fun a =>
      ruleV v 1 fun u => fd_offset_unit c (TimeUnit.from_int u) (0 - a) r),
    fpEntry "-[int] [long_unit]" (fun c v r => ruleV v 0 fun a =>
      ruleV v 1 fun u => fd_offset_unit c (TimeUnit.from_int u) (0 - a) r),
    fpEntry "+[int][unit]" (fun c v r => ruleV v 0 fun a => ruleV v 1 fun u =>
      fd_offset_unit c (TimeUnit.from_int u) a r),
    fpEntry "+[int][short_unit]" (fun c v r => ruleV v 0 fun a =>
      ruleV v 1 fun u => fd_offset_unit c (TimeUnit.from_int u) a r),
    fpEntry "+[int] [long_unit]" (fun c v r => ruleV v 0 fun a =>
      ruleV v 1 fun u => fd_offset_unit c (TimeUnit.from_int u) a r),
    fpEntry "[int] [unit] ago" (fun c v r => ruleV v 0 fun a =>
      ruleV v 1 fun u => fd_offset_unit c (TimeUnit.from_int u) (0 - a) r),
    fpEntry "[int] [long_unit] ago" (fun c v r => ruleV v 0 fun a =>
      ruleV v 1 fun u => fd_offset_unit c (TimeUnit.from_int u) (0 - a) r),
    fpEntry "first [long_unit] of [month]" (fun c v _ => ruleV v 0 fun u =>
      ruleV v 1 fun m =>
        andThen (fd_offset_range_month c (TimeUnit.from_int u) m Change.first)
          fd_time_reset),
    fpEntry "last [long_unit] of [month]" (fun c v _ => ruleV v 0 fun u =>
      ruleV v 1 fun m =>
        andThen (fd_offset_range_month c (TimeUnit.from_int u) m Change.last)
          fd_time_reset),
    fpEntry "first [long_unit] of this [long_unit]" (fun c v _ =>
      ruleV v 0 fun a => ruleV v 1 fun b =>
        andThen (fd_offset_range_unit c (TimeUnit.from_int a)
          (TimeUnit.from_int b) Change.first) fd_time_reset),
    fpEntry "last [long_unit] of this [long_unit]" (fun c v _ =>
      ruleV v 0 fun a => ruleV v 1 fun b =>
        andThen (fd_offset_range_unit c (TimeUnit.from_int a)
          (TimeUnit.from_int b) Change.last) fd_time_reset),
    fpEntry "first [long_unit] of prev [long_unit]" (fun c v r =>
      ruleV v 1 fun b =>
        andThen (fd_offset_unit c (TimeUnit.from_int b) (-1) r) fun c1 =>
          ruleV v 0 fun a =>
            andThen (fd_offset_range_unit c1 (TimeUnit.from_int a)
              (TimeUnit.from_int b) Change.first) fd_time_reset),
    fpEntry "last [long_unit] of prev [long_unit]" (fun c v r =>
      ruleV v 1 fun b =>
        andThen (fd_offset_unit c (TimeUnit.from_int b) (-1) r) fun c1 =>
          ruleV v 0 fun a =>
            andThen (fd_offset_range_unit c1 (TimeUnit.from_int a)
              (TimeUnit.from_int b) Change.last) fd_time_reset),
    fpEntry "first [long_unit] of last [long_unit]" (fun c v r =>
      ruleV v 1 fun b =>
        andThen (fd_offset_unit c (TimeUnit.from_int b) (-1) r) fun c1 =>
          ruleV v 0 fun a =>
            andThen (fd_offset_range_unit c1 (TimeUnit.from_int a)
              (TimeUnit.from_int b) Change.first) fd_time_reset),
    fpEntry "last [long_unit] of last [long_unit]" (fun c v r =>
      ruleV v 1 fun b =>
        andThen (fd_offset_unit c (TimeUnit.from_int b) (-1) r) fun c1 =>
          ruleV v 0 fun a =>
            andThen (fd_offset_range_unit c1 (TimeUnit.from_int a)
              (TimeUnit.from_int b) Change.last) fd_time_reset),
    fpEntry "first [long_unit] of next [long_unit]" (fun c v r =>
      ruleV v 1 fun b =>
        andThen (fd_offset_unit c (TimeUnit.from_int b) 1 r) fun c1 =>
          ruleV v 0 fun a =>
            andThen (fd_offset_range_unit c1 (TimeUnit.from_int a)
              (TimeUnit.from_int b) Change.first) fd_time_reset),
    fpEntry "last [long_unit] of next [long_unit]" (fun c v r =>
      ruleV v 1 fun b =>
        andThen (fd_offset_unit c (TimeUnit.from_int b) 1 r) fun c1 =>
          ruleV v 0 fun a =>
            andThen (fd_offset_range_unit c1 (TimeUnit.from_int a)
              (TimeUnit.from_int b) Change.last) fd_time_reset),
    fpEntry "[timestamp]" (fun _ v _ => ruleV v 0 fun s =>
      fd_date_stamp s 0),
    fpEntry "[timestamp].[int]" (fun _ v _ => ruleV v 0 fun s =>
      ruleV v 1 fun ms => fd_date_stamp s ms),
    fpEntry "[year]-[int]-[int]" (fun c v _ => ruleV v 0 fun a =>
      ruleV v 1 fun b => ruleV v 2 fun d =>
        andThen (date_ymd c a b d) fd_time_reset),
    fpEntry "[int].[int].[year]" (fun c v _ => ruleV v 0 fun a =>
      ruleV v 1 fun b => ruleV v 2 fun d =>
        andThen (date_ymd c d b a) fd_time_reset),
    fpEntry "[int]/[int]/[year]" (fun c v _ => ruleV v 0 fun a =>
      ruleV v 1 fun b => ruleV v 2 fun d =>
        andThen (date_ymd c d a b) fd_time_reset),
    fpEntry "[month] [int] [year]" (fun c v _ => ruleV v 0 fun a =>
      ruleV v 1 fun b => ruleV v 2 fun d =>
        andThen (date_ymd c d a b) fd_time_reset),
    fpEntry "[month] [nth] [year]" (fun c v _ => ruleV v 0 fun a =>
      ruleV v 1 fun b => ruleV v 2 fun d =>
        andThen (date_ymd c d a b) fd_time_reset),
    fpEntry "[int] [month] [year]" (fun c v _ => ruleV v 0 fun a =>
      ruleV v 1 fun b => ruleV v 2 fun d =>
        andThen (date_ymd c d b a) fd_time_reset),
    fpEntry "[year]-[int]-[int] [int]:[int]" (fun c v _ => ruleV v 0 fun a =>
      ruleV v 1 fun b => ruleV v 2 fun d => ruleV v 3 fun h =>
        ruleV v 4 fun mi =>
          andThen (date_ymd c a b d) fun c1 => time_hms c1 h mi 0),
    fpEntry "[year]-[int]-[int] [int]:[int]:[int]" (fun c v _ =>
      ruleV v 0 fun a => ruleV v 1 fun b => ruleV v 2 fun d =>
        ruleV v 3 fun h => ruleV v 4 fun mi => ruleV v 5 fun s =>
          andThen (date_ymd c a b d) fun c1 => time_hms c1 h mi s) ]

/-- Look up the rule bound to a pattern key. -/
def lookupRule : List (List Char × FuzzyRule) → List Char → Option FuzzyRule
  | [], _ => Option.none
  | (k, f) :: rest, key => if k = key then some f else lookupRule rest key

/-- The rule the engine runs for a matched built-in key (total, with an
identity fallback that no built-in key reaches). -/
def ruleFor (key : List Char) : FuzzyRule :=
  match lookupRule FUZZY_PATTERNS key with
  | some f => f
  | Option.none => fun c _ _ => .ok c

/-- Rust `str::trim_start` on the remaining suffix. -/
def trimStart (l : List Char) : List Char := l.dropWhile isWS

/-- The greedy decomposition loop of `find_pattern_calls` (`fuzzy.rs`
lines 283–302): repeatedly collect the candidate keys for the remaining
suffix, pick the sort-descending first (the `ltCh`-greatest), consume
`min (best.length) (search.length)` characters and trim leading
whitespace.  `none` is the `return vec![]` failure (or exhausted fuel;
`find_pattern_calls` supplies enough fuel for every terminating run). -/
def decomposeAux (keys : List (List Char)) (sign : Char) :
    Nat → List Char → Option (List (List Char))
  | 0, _ => Option.none
  | fuel + 1, search =>
    if search.length = 0 then some []
    else
      if candidatesFor keys sign search = [] then Option.none
      else
        match decomposeAux keys sign fuel
          (trimStart (search.drop
            (min (bestOf (candidatesFor keys sign search)).length
              search.length))) with
        | some r => some (bestOf (candidatesFor keys sign search) :: r)
        | Option.none => Option.none

/-- `find_pattern_calls` from `fuzzy.rs`, at the level of the matched key
strings: the exact-match fast path, else the greedy loop with the sign
character inferred **once** from the whole original pattern; a failed
decomposition is the empty list. -/
def find_pattern_calls (keys : List (List Char)) (pattern : List Char) :
    List (List Char) :=
  if pattern ∈ keys then [pattern]
  else (decomposeAux keys (signChar pattern) (pattern.length + 1)
    pattern).getD []

/-- Outcome of `convert`: a timestamp, the graceful `None`, or a panic. -/
inductive ConvOut where
  | success : DT → ConvOut
  | failure : ConvOut
  | panicked : ConvOut
deriving DecidableEq, Repr

/-- The sequential rule application of `convert` (`fuzzy.rs` lines
243–250): each rule gets the current context and the remaining values;
after it succeeds the cursor advances by the number of `[` characters of
the matched key (`pattern_match.split("[").count() - 1`); the slice
`values[used_vars..]` panics when fewer values remain. -/
def applyCalls : List (List Char) → DT → List Int → Rules → ConvOut
  | [], t, _, _ => .success t
  | key :: rest, t, values, r =>
    match ruleFor key t values r with
    | .err => .failure
    | .panicked => .panicked
    | .ok t1 =>
      if countBrackets key ≤ values.length then
        applyCalls rest t1 (values.drop (countBrackets key)) r
      else .panicked

/-- `convert` from `fuzzy.rs`, with the built-in pattern table. -/
def convert (pattern : List Char) (values : List Int) (t : DT)
    (week_start_mon : Bool) : ConvOut :=
  if (find_pattern_calls builtinKeys pattern).length = 0 then .failure
  else applyCalls (find_pattern_calls builtinKeys pattern) t values
    ⟨week_start_mon⟩

/-- Modelled from the specification text, for comparison with
`decomposeAux`: the same greedy loop, but re-inferring the sign character
from each remaining suffix before collecting candidate keys. -/
def decomposeRespec (keys : List (List Char)) :
    Nat → List Char → Option (List (List Char))
  | 0, _ => Option.none
  | fuel + 1, search =>
    if search.length = 0 then some []
    else
      if candidatesFor keys (signChar search) search = [] then Option.none
      else
        match decomposeRespec keys fuel
          (trimStart (search.drop
            (min (bestOf (candidatesFor keys (signChar search)
              search)).length search.length))) with
        | some r =>
          some (bestOf (candidatesFor keys (signChar search) search) :: r)
        | Option.none => Option.none

/-- Modelled from the specification text: `find_pattern_calls` with the
per-suffix sign re-inference of `decomposeRespec`. -/
def findPatternCallsRespec (keys : List (List Char)) (pattern : List Char) :
    List (List Char) :=
  if pattern ∈ keys then [pattern]
  else (decomposeRespec keys (pattern.length + 1) pattern).getD []

/-- C3: the claim that the decomposition sign is re-evaluated for every
remaining suffix is refuted: on the pattern
`-[int][short_unit] [int][short_unit]` the code matches the second chunk
against the minus template as well, while the spec-modelled per-suffix
re-inference would match it against the plus template. -/
theorem c3_counterexample :
    find_pattern_calls builtinKeys
        "-[int][short_unit] [int][short_unit]".toList
      = ["-[int][short_unit]".toList, "-[int][short_unit]".toList]
    ∧ findPatternCallsRespec builtinKeys
        "-[int][short_unit] [int][short_unit]".toList
      = ["-[int][short_unit]".toList, "+[int][short_unit]".toList]
    ∧ find_pattern_calls builtinKeys
        "-[int][short_unit] [int][short_unit]".toList
      ≠ findPatternCallsRespec builtinKeys
        "-[int][short_unit] [int][short_unit]".toList := by
  decide

/-- C3 (amended): the sign character is inferred once from the whole
original pattern and kept for every iteration.  The input `-1d 1h`
tokenizes to `-[int][short_unit] [int][short_unit]`; its second suffix
`[int][short_unit]` starts with neither `-`, `prev` nor `last` (so its
own inferred sign would be `+`), yet the code resolves both chunks to the
minus template. -/
theorem c3_sign_inferred_once :
    (tokenize "-1d 1h".toList []).1
        = "-[int][short_unit] [int][short_unit]".toList
      ∧ signChar "[int][short_unit]".toList = '+'
      ∧ startsWith "[int][short_unit]".toList "-".toList = false
      ∧ find_pattern_calls builtinKeys
          "-[int][short_unit] [int][short_unit]".toList
        = ["-[int][short_unit]".toList, "-[int][short_unit]".toList] := by
  decide

/-- C4: the claim that conversion never fails when the tokenized pattern
equals a built-in template is refuted: `1982-04-32` tokenizes exactly to
the built-in template `[year]-[int]-[int]`, but `date_ymd` rejects day 32
of April, so `convert` returns the failure outcome. -/
theorem c4_counterexample :
    (tokenize "1982-04-32".toList []).1 = "[year]-[int]-[int]".toList
      ∧ "[year]-[int]-[int]".toList ∈ builtinKeys
      ∧ (tokenize "1982-04-32".toList []).2.map Token.value = [1982, 4, 32]
      ∧ convert "[year]-[int]-[int]".toList [1982, 4, 32]
          (mkLocal 2024 1 12 15 22 28 7200) true = ConvOut.failure := by
  decide

/-- C4 (amended): when the pattern equals a built-in template the
pattern-matching stage always succeeds with exactly that single template
(the exact-match fast path), so a conversion failure can only come from
the rule itself rejecting the token values. -/
theorem c4_exact_template_single_call (p : List Char)
    (hp : p ∈ builtinKeys) :
    find_pattern_calls builtinKeys p = [p] := by
  unfold find_pattern_calls
  rw [if_pos hp]

theorem c4_exact_template_single_call_witness :
    "[year]-[int]-[int]".toList ∈ builtinKeys
      ∧ find_pattern_calls builtinKeys "[year]-[int]-[int]".toList
        = ["[year]-[int]-[int]".toList] :=
  ⟨by decide,
    c4_exact_template_single_call "[year]-[int]-[int]".toList (by decide)⟩

/-- C5: the claim that no core operation panics is refuted: the input
`@9999999999999999` tokenizes to the `[timestamp]` template with value
9999999999999999, which exceeds chrono's representable range, so
`DateTime::from_timestamp` returns `None` and the `.unwrap()` in
`convert::date_stamp` panics. -/
theorem c5_core_panics :
    (tokenize "@9999999999999999".toList []).1 = "[timestamp]".toList
      ∧ (tokenize "@9999999999999999".toList []).2.map Token.value
        = [9999999999999999]
      ∧ convert "[timestamp]".toList [9999999999999999]
          (mkLocal 2024 1 12 15 22 28 7200) true = ConvOut.panicked := by
  decide

/-- C9: converting the pattern `now` is the identity on the current time,
for every value list and either week-start convention. -/
theorem c9_now_identity (t : DT) (values : List Int) (ws : Bool) :
    convert "now".toList values t ws = ConvOut.success t := by
  have h1 : find_pattern_calls builtinKeys "now".toList
      = ["now".toList] := by decide
  unfold convert
  rw [h1]
  rw [if_neg (by decide : ¬(["now".toList].length = 0))]
  rw [applyCalls]
  have h2 : ruleFor "now".toList t values ⟨ws⟩ = RRes.ok t := rfl
  rw [h2]
  have h3 : countBrackets "now".toList = 0 := by decide
  rw [h3]
  show (if 0 ≤ values.length then
      applyCalls [] t (List.drop 0 values) ⟨ws⟩
    else ConvOut.panicked) = ConvOut.success t
  rw [if_pos (Nat.zero_le _), List.drop_zero]
  rfl

end FuzzyDateSpec
